import Mathlib

/-!
Verification development for the onert executor-construction pipeline
(`runtime/onert/core/src/compiler/ExecutorFactory.cc`).

The C++ source is shallowly embedded: each function of the source file is
translated into a Lean function over an explicit model of graphs, lowered
graphs, backend contexts and tensor registries.  Machine maps
(`std::unordered_map`, `ObjectManager`) are modelled as association lists,
iterated in deterministic (insertion) order; raw pointers are modelled as
values.  Failure points of the source (`assert`, `std::map::at`) are modelled
by an explicit error type threaded through `Except`.
-/

namespace ONE

/-- Association-list lookup (model of `std::unordered_map::find` /
`ObjectManager::at`): first entry whose key matches. -/
def alookup {α β : Type} [DecidableEq α] : List (α × β) → α → Option β
  | [], _ => none
  | p :: rest, a => if p.1 = a then some p.2 else alookup rest a

/-- Association-list update-or-insert (model of `std::unordered_map::operator[]`
followed by a mutation `f`): updates the first entry with the key, appending a
default-constructed entry when the key is absent. -/
def aupdate {α β : Type} [DecidableEq α] (d : β) : List (α × β) → α → (β → β) → List (α × β)
  | [], a, f => [(a, f d)]
  | p :: rest, a, f => if p.1 = a then (p.1, f p.2) :: rest else p :: aupdate d rest a f

/-- `ir::Operand`: typed/shaped tensor descriptor.  `info` stands for the
type-and-shape payload (opaque here), `isVariable` for
`info().isVariable()`, `isConstant` for `isConstant()` (a flag of the
descriptor, per the spec data model: `ir::Operand`'s own code is outside the
excerpt), `data` for the optional constant payload. -/
structure Operand where
  info : Nat
  isVariable : Bool
  isConstant : Bool
  data : Option Nat
  deriving DecidableEq, Repr

/-- `ir::Operation`: input and output operand index lists; `none` stands for
`ir::OperandIndex` UNDEFINED entries. -/
structure Operation where
  inputs : List (Option Nat)
  outputs : List (Option Nat)
  deriving DecidableEq, Repr

/-- `(op.getInputs() + op.getOutputs()) | ir::Remove::DUPLICATED |
ir::Remove::UNDEFINED`: defined input/output indices, duplicates removed. -/
def Operation.ioList (op : Operation) : List Nat :=
  ((op.inputs ++ op.outputs).filterMap id).dedup

/-- `op.getInputs() | ir::Remove::DUPLICATED | ir::Remove::UNDEFINED`. -/
def Operation.inputList (op : Operation) : List Nat :=
  (op.inputs.filterMap id).dedup

/-- `ir::Graph`: operand and operation stores (association lists keyed by the
stable indices), graph-input and graph-output index sequences, a layout. -/
structure Graph where
  operands : List (Nat × Operand)
  operations : List (Nat × Operation)
  inputs : List Nat
  outputs : List Nat
  layout : Nat
  deriving DecidableEq, Repr

/-- `graph.operands().at(ind)` (defaulted when absent; the source asserts
existence). -/
def Graph.operandAt (g : Graph) (ind : Nat) : Operand :=
  (alookup g.operands ind).getD ⟨0, false, false, none⟩

/-- `graph.operations().at(ind)` (defaulted when absent; the source asserts
existence). -/
def Graph.operationAt (g : Graph) (ind : Nat) : Operation :=
  (alookup g.operations ind).getD ⟨[], []⟩

/-- Modelled from the spec: `Operand::getDef()` — the def-use links maintained
by `ir::Graph` (outside the excerpt) resolve an operand's def to the operation
of the graph that lists it among its outputs. -/
def Graph.getDef (g : Graph) (ind : Nat) : Option Nat :=
  (g.operations.find? (fun p => (p.2.outputs.filterMap id).contains ind)).map Prod.fst

/-- Modelled from the spec: `Operand::getUses()` — the set of operation
indices of the graph that list the operand among their inputs. -/
def Graph.getUses (g : Graph) (ind : Nat) : List Nat :=
  (g.operations.filter (fun p => (p.2.inputs.filterMap id).contains ind)).map Prod.fst

/-- `ir::operation::PermuteFactor`: a (backend, layout) pair.  Backends are
identified by their `config()->id()` string. -/
structure PermuteFactor where
  backend : String
  layout : Nat
  deriving DecidableEq, Repr

/-- `PermuteFactorSet::getOnlyElement()` (asserts the set is a singleton;
modelled by taking the head, callers establish the singleton property). -/
def getOnlyElement (l : List PermuteFactor) : PermuteFactor :=
  l.headD ⟨"", 0⟩

/-- `compiler::LoweredGraph`: a graph plus the lower-info sidecars
(`lower_info().operand.at(ind).def_factors()` and
`lower_info().operation.at(ind).backend()`). -/
structure LoweredGraph where
  graph : Graph
  operandDefFactors : Nat → List PermuteFactor
  operationBackend : Nat → String

/-- `backend::ContextData` (the fields the pipeline reads): the partial graph,
`external_operands`, `operand_layouts`, `op_order`, `is_linear_executor`. -/
structure ContextData where
  pgraph : Graph
  externalOperands : List Nat
  operandLayouts : List (Nat × Nat)
  opOrder : List Nat
  isLinearExecutor : Bool
  deriving DecidableEq, Repr

/-- A default-constructed `ContextData` entry of `context_data_map`
(`std::unordered_map::operator[]`); the partial graph starts empty. -/
def emptyContextData : ContextData :=
  ⟨⟨[], [], [], [], 0⟩, [], [], [], false⟩

/-- Modelled from the spec: `Graph::topolSortOperations()` /
`Linear::linearize` (outside the excerpt) produce a topological order over the
whole graph's operations — a permutation of the operation indices.  Modelled
as the operation store's index order; the theorems below that depend on the
order only assume it is such a permutation. -/
def Graph.topolSortOperations (g : Graph) : List Nat :=
  g.operations.map Prod.fst

/-- Insertion of a copied operand (same index, def/use cleared) plus its
layout into a backend's context data (lines 150-152, 176-187). -/
def operandCopyFn (operandInd : Nat) (operand : Operand) (layout : Nat) :
    ContextData → ContextData :=
  fun data =>
    { data with
      pgraph := { data.pgraph with operands := data.pgraph.operands ++ [(operandInd, operand)] },
      operandLayouts := data.operandLayouts ++ [(operandInd, layout)] }

/-- One step of the operand-separation loop on the `context_data_map`: an
unused operand (empty `def_factors`) is ignored; otherwise the operand is
copied into its chosen backend's partial graph. -/
def operandSepStep (lg : LoweredGraph) (m : List (String × ContextData)) (p : Nat × Operand) :
    List (String × ContextData) :=
  if lg.operandDefFactors p.1 = [] then m  -- Ignore unused tensor
  else
    aupdate emptyContextData m (getOnlyElement (lg.operandDefFactors p.1)).backend
      (operandCopyFn p.1 p.2 (getOnlyElement (lg.operandDefFactors p.1)).layout)

/-- The effect of the operand-separation loop on a whole-graph operand:
`operand.releaseData()` for used operands, untouched otherwise. -/
def releasedOperand (lg : LoweredGraph) (p : Nat × Operand) : Nat × Operand :=
  if lg.operandDefFactors p.1 = [] then p else (p.1, { p.2 with data := none })

/-- The operand-separation loop of `createBackendContexts` (lines 138-157):
walks the whole graph's operands; a used operand (non-empty `def_factors`) is
copied into the partial graph of its chosen backend under the same index, its
layout recorded, and the whole graph's copy of the data payload released.
Returns the updated `context_data_map` and the mutated whole-operand store. -/
def separateOperands (lg : LoweredGraph) (ctxs0 : List (String × ContextData)) :
    List (String × ContextData) × List (Nat × Operand) :=
  lg.graph.operands.foldl
    (fun st p => (operandSepStep lg st.1 p, st.2 ++ [releasedOperand lg p]))
    (ctxs0, [])

/-- Adding one missing operand of an operation to the partial graph (lines
171-189): if already present skip; otherwise copy it from the (already
mutated) whole graph, record its layout, and mark it external. -/
def addExternalOperand (lg : LoweredGraph) (wholeOperands : List (Nat × Operand))
    (data : ContextData) (operandInd : Nat) : ContextData :=
  if (alookup data.pgraph.operands operandInd).isSome then data
  else
    { data with
      pgraph := { data.pgraph with operands := data.pgraph.operands ++
        [(operandInd, (alookup wholeOperands operandInd).getD ⟨0, false, false, none⟩)] },
      operandLayouts := data.operandLayouts ++
        [(operandInd, (getOnlyElement (lg.operandDefFactors operandInd)).layout)],
      externalOperands := data.externalOperands ++ [operandInd] }

/-- The per-operation body of the operation-separation loop (lines 159-195):
missing input/output operands are copied from the (already mutated) whole
graph into the partial graph and recorded as externals, then the operation is
cloned in under the same index. -/
def separateOneOperation (lg : LoweredGraph) (wholeOperands : List (Nat × Operand))
    (opInd : Nat) (op : Operation) (data : ContextData) : ContextData :=
  let data := op.ioList.foldl (addExternalOperand lg wholeOperands) data
  { data with pgraph := { data.pgraph with operations := data.pgraph.operations ++ [(opInd, op)] } }

/-- One step of the operation-separation loop on the `context_data_map`. -/
def operationSepStep (lg : LoweredGraph) (wholeOperands : List (Nat × Operand))
    (m : List (String × ContextData)) (q : Nat × Operation) : List (String × ContextData) :=
  aupdate emptyContextData m (lg.operationBackend q.1)
    (separateOneOperation lg wholeOperands q.1 q.2)

/-- The operation-separation loop of `createBackendContexts` (lines 159-195)
over the whole graph's operations. -/
def separateOperations (lg : LoweredGraph) (wholeOperands : List (Nat × Operand))
    (ctxs0 : List (String × ContextData)) : List (String × ContextData) :=
  lg.graph.operations.foldl (operationSepStep lg wholeOperands) ctxs0

/-- The per-operand body of the finalization loop (lines 204-214), reading the
def/use links of the already-built partial graph `data0.pgraph`. -/
def finalizeStep (whole : Graph) (data0 : ContextData) (data : ContextData)
    (p : Nat × Operand) : ContextData :=
  let data :=
    if p.1 ∈ whole.inputs ∨ p.1 ∈ whole.outputs then
      { data with externalOperands := data.externalOperands ++ [p.1] }
    else data
  -- Inputs are either "graph input" or "no def op and non-constant"
  let data :=
    if p.1 ∈ whole.inputs ∨ ((data0.pgraph.getDef p.1).isNone ∧ p.2.isConstant = false) then
      { data with pgraph := { data.pgraph with inputs := data.pgraph.inputs ++ [p.1] } }
    else data
  -- Outputs are either "graph output" or "no uses"
  if p.1 ∈ whole.outputs ∨ data0.pgraph.getUses p.1 = [] then
    { data with pgraph := { data.pgraph with outputs := data.pgraph.outputs ++ [p.1] } }
  else data

/-- The per-backend finalization of `createBackendContexts` (lines 199-222):
graph inputs/outputs present in the partial graph are marked external; the
partial graph's input list collects the whole-graph inputs plus the operands
with no valid def and not constant; its output list collects the whole-graph
outputs plus the operands with zero uses; `op_order` is the whole-graph
topological order restricted to the partial graph's operations. -/
def finalizeContextData (whole : Graph) (wholeOpOrder : List Nat) (linearExecutor : Bool)
    (data0 : ContextData) : ContextData :=
  let data := data0.pgraph.operands.foldl (finalizeStep whole data0) data0
  { data with
    opOrder := wholeOpOrder.filter (fun ind => (alookup data.pgraph.operations ind).isSome),
    isLinearExecutor := linearExecutor }

/-- The external-marking condition of line 205: the operand is a whole-graph
input or output. -/
def finExtCond (whole : Graph) (p : Nat × Operand) : Bool :=
  decide (p.1 ∈ whole.inputs ∨ p.1 ∈ whole.outputs)

/-- The partial-graph-input condition of lines 208-209: whole-graph input, or
no valid def in the partial graph and not constant. -/
def finInCond (whole : Graph) (data0 : ContextData) (p : Nat × Operand) : Bool :=
  decide (p.1 ∈ whole.inputs ∨ ((data0.pgraph.getDef p.1).isNone ∧ p.2.isConstant = false))

/-- The partial-graph-output condition of line 212: whole-graph output, or
zero uses in the partial graph. -/
def finOutCond (whole : Graph) (data0 : ContextData) (p : Nat × Operand) : Bool :=
  decide (p.1 ∈ whole.outputs ∨ data0.pgraph.getUses p.1 = [])

/-- Result of `createBackendContexts`: the per-backend context data (keyed by
backend, in `BackendManager::getAll` order followed by insertion order of any
further keys) and the mutated lowered graph. -/
structure BackendContextsResult where
  contexts : List (String × ContextData)
  lgraph : LoweredGraph

/-- The initial `context_data_map`: one empty entry per backend of
`BackendManager::get().getAll()`, the partial graph's layout set to the whole
graph's (lines 127-134). -/
def initialContextMap (backends : List String) (lg : LoweredGraph) :
    List (String × ContextData) :=
  backends.map (fun b => (b, { emptyContextData with
    pgraph := { emptyContextData.pgraph with layout := lg.graph.layout } }))

/-- The operand-separation phase applied to the initial context map. -/
def cbcOperandPhase (backends : List String) (lg : LoweredGraph) :
    List (String × ContextData) × List (Nat × Operand) :=
  separateOperands lg (initialContextMap backends lg)

/-- The lowered graph after the operand-separation phase (data payloads of
used operands released; nothing else touched). -/
def cbcMutatedLg (backends : List String) (lg : LoweredGraph) : LoweredGraph :=
  { lg with graph := { lg.graph with operands := (cbcOperandPhase backends lg).2 } }

/-- `createBackendContexts(lgraph, linear_executor)` (lines 120-224).
`backends` stands for `BackendManager::get().getAll()`.  The source then calls
`backend->newContext(std::move(data))` on each entry; the backend-supplied
parts of the resulting `BackendContext` (tensor registry, kernel generator)
are modelled separately (`BackendABI`). -/
def createBackendContexts (backends : List String) (lg : LoweredGraph)
    (linearExecutor : Bool) : BackendContextsResult :=
  ⟨(separateOperations (cbcMutatedLg backends lg) (cbcOperandPhase backends lg).2
        (cbcOperandPhase backends lg).1).map
      (fun p =>
        (p.1, finalizeContextData (cbcMutatedLg backends lg).graph
          ((cbcMutatedLg backends lg).graph.topolSortOperations) linearExecutor p.2)),
   cbcMutatedLg backends lg⟩

/-- A runtime tensor (`backend::ITensor`).  `portable` records whether the
C++ object is a `backend::IPortableTensor` (the `dynamic_cast` in
`prepareMigrantTensors`), `isDynamic` models `is_dynamic()`, `owner` the
backend that created it, `kind` distinguishes IO tensors from native ones. -/
structure Tensor where
  portable : Bool
  isDynamic : Bool
  owner : String
  kind : Nat
  deriving DecidableEq, Repr

/-- A backend's tensor registry: operand index → tensor
(`getITensor(ind)` is `alookup`). -/
abbrev TensorRegistry := List (Nat × Tensor)

/-- `TensorRegistries::getITensor(ind)` (with `include_builtin`): search every
backend's registry, first hit wins (the source's iteration order over the
registry set is unspecified; the registry list order determinizes it). -/
def getITensorAll (regs : List (String × TensorRegistry)) (ind : Nat) : Option Tensor :=
  match regs with
  | [] => none
  | p :: rest =>
    match alookup p.2 ind with
    | some t => some t
    | none => getITensorAll rest ind

/-- `tensor_registry->setMigrantTensor(ind, t)` on backend `b`'s registry
(called only for indices absent from it; appending keeps existing entries
authoritative for `alookup`). -/
def setMigrantTensor (regs : List (String × TensorRegistry)) (b : String) (ind : Nat)
    (t : Tensor) : List (String × TensorRegistry) :=
  regs.map (fun p => if p.1 = b then (p.1, p.2 ++ [(ind, t)]) else p)

/-- The failure modes of the construction pipeline as the source exhibits
them: a failed `assert` (process abort in debug builds), and
`std::map::at` / `std::unordered_map::at` raising `std::out_of_range`.
The source file never constructs a `ConfigError`-like exception. -/
inductive CtorFailure where
  | assertionFailure : String → CtorFailure
  | mapAtOutOfRange : String → CtorFailure
  | configError : String → CtorFailure
  deriving DecidableEq, Repr

/-- `initializeSubgraphIOTensors(lowered_graph, backend_contexts, indices)`
(lines 89-118): locate the builtin backend's tensor registry (the loop keeps
the last context whose config id is `"builtin"`); `assert(builtin_tensor_reg)`
— absence is an assertion failure, nothing else is raised.  Then an IOTensor
(operand info, NHWC layout) is installed into the builtin registry for every
index. -/
def initSubgraphIOTensors (regs : List (String × TensorRegistry)) (g : Graph)
    (indices : List Nat) : Except CtorFailure (List (String × TensorRegistry)) :=
  let builtinReg : Option String :=
    regs.foldl (fun acc p => if p.1 = "builtin" then some p.1 else acc) none
  match builtinReg with
  | none => .error (.assertionFailure "builtin_tensor_reg")
  | some b =>
    .ok (indices.foldl
      (fun regs ind =>
        let tensor : Tensor := ⟨true, false, b, (g.operandAt ind).info⟩
        regs.map (fun p => if p.1 = b then (p.1, p.2 ++ [(ind, tensor)]) else p))
      regs)

/-- The inner loop of `ExecutorFactory::prepareMigrantTensors`
(lines 265-279) over one operation's defined input/output operands: if the
op's backend registry already resolves the operand, skip; otherwise find the
tensor among all registries (`assert(tensor)` — the search must succeed) and
register it as a migrant in the op's backend registry exactly when it is
portable. -/
def migrantFold (b : String) (regs : List (String × TensorRegistry)) :
    List Nat → Except CtorFailure (List (String × TensorRegistry))
  | [] => .ok regs
  | ind :: rest =>
    match alookup ((alookup regs b).getD []) ind with
    | some _ => migrantFold b regs rest
    | none =>
      match getITensorAll regs ind with
      | none => .error (.assertionFailure "tensor")
      | some t => migrantFold b (if t.portable then setMigrantTensor regs b ind t else regs) rest

/-- The body of `prepareMigrantTensors` for one operation. -/
def migrantStepOp (b : String) (op : Operation)
    (regs : List (String × TensorRegistry)) :
    Except CtorFailure (List (String × TensorRegistry)) :=
  migrantFold b regs op.ioList

/-- The loop of `prepareMigrantTensors` over the whole graph's operations;
`backend_contexts.at(lower_info->backend())` raises `std::out_of_range` when
the op's backend has no context. -/
def prepareFold (lg : LoweredGraph) (regs : List (String × TensorRegistry)) :
    List (Nat × Operation) → Except CtorFailure (List (String × TensorRegistry))
  | [] => .ok regs
  | q :: rest =>
    if (alookup regs (lg.operationBackend q.1)).isSome then
      match migrantStepOp (lg.operationBackend q.1) q.2 regs with
      | .error e => .error e
      | .ok regs2 => prepareFold lg regs2 rest
    else .error (.mapAtOutOfRange (lg.operationBackend q.1))

/-- `ExecutorFactory::prepareMigrantTensors(lowered_graph, backend_contexts)`
(lines 256-281): iterate every operation of the whole graph, wiring migrant
tensors for its operands. -/
def prepareMigrantTensors (lg : LoweredGraph)
    (regs : List (String × TensorRegistry)) :
    Except CtorFailure (List (String × TensorRegistry)) :=
  prepareFold lg regs lg.graph.operations

/-- `ExecutorFactory::orderBackendContext(backend_contexts)` (lines 299-317):
the builtin backend context goes to the back of the deque, every other to the
front, so the builtin backend is processed last. -/
def orderBackendContext (contexts : List (String × ContextData)) :
    List (String × ContextData) :=
  contexts.foldl
    (fun ordered p => if p.1 = "builtin" then ordered ++ [p] else p :: ordered)
    []

/-- The initial use-counter of the dealloc simulation (lines 358-376):
`uses_map[ind] = obj.getUses().size()`, incremented once when the operand is
constant ("a trick to consider constants as an exception"). -/
def initialUses (g : Graph) (ind : Nat) : Nat :=
  (g.getUses ind).length + (if (g.operandAt ind).isConstant then 1 else 0)

/-- The per-input-operand condition of line 390: the counter just reached
zero, the operand is not a Variable and not a graph input/output.  `u` is the
counter state before the decrement. -/
def deadCond (g : Graph) (modelIOList : List Nat) (u : Nat → Nat) (ind : Nat) : Bool :=
  u ind - 1 = 0 && !(g.operandAt ind).isVariable && !(modelIOList.contains ind)

/-- The walk over one operation's deduplicated defined inputs
(lines 384-394): decrement each counter; collect the operands whose counter
reached zero and that are neither Variables nor graph inputs/outputs. -/
def deallocWalkOp (g : Graph) (modelIOList : List Nat) (st : (Nat → Nat) × List Nat)
    (op : Operation) : (Nat → Nat) × List Nat :=
  op.inputList.foldl
    (fun st ind =>
      let u := st.1 ind - 1
      let uses := fun j => if j = ind then u else st.1 j
      if deadCond g modelIOList st.1 ind then (uses, st.2 ++ [ind]) else (uses, st.2))
    st

/-- The dealloc simulation of `createLinearExecutor` (lines 355-406): walk the
operations in the linearized order, returning `dealloc_list_map` as an
association list in that order (entries with empty lists included; the source
creates map entries lazily, which only drops empty lists).  Each listed
operand index stands for the `tensor_regs.getITensor(ind)` pointer the source
stores. -/
def deallocPlan (g : Graph) (order : List Nat) : List (Nat × List Nat) :=
  let modelIOList := (g.inputs ++ g.outputs).dedup
  (order.foldl
    (fun st opInd =>
      let r := deallocWalkOp g modelIOList (st.1, []) (g.operationAt opInd)
      (r.1, st.2 ++ [(opInd, r.2)]))
    (initialUses g, [])).2

/-- `exec::IFunction` objects relevant to the pipeline.  `kernel` is an
opaque backend-produced function (sequence); `sync` is the `SyncFunction`
wrapper (lines 44-66) holding the inner function and the backend config it
synchronizes (identified by backend id); `deallocFn` is the
`DeallocFunction` (lines 70-87) holding its dealloc list (operand index and
tensor); `fnSeq` is a `FunctionSequence` running one function after
another (`wrap` turns the sequence `s` into `Sync(s)`; `append` adds a
function at the end). -/
inductive RtFn where
  | kernel : Nat → RtFn
  | sync : RtFn → String → RtFn
  | deallocFn : List (Nat × Tensor) → RtFn
  | fnSeq : RtFn → RtFn → RtFn
  deriving DecidableEq, Repr

/-- Observable events of running an `exec::IFunction`. -/
inductive RtEvent where
  | runKernel : Nat → RtEvent
  | syncBackend : String → RtEvent
  | deallocBuffer : Nat → RtEvent
  deriving DecidableEq, Repr

/-- `IFunction::run()` as an event trace.  `SyncFunction::run` (lines 55-59)
first runs the inner function to completion, then calls `_config->sync()`;
`DeallocFunction::run` (lines 75-83) releases the buffer of each dynamic
tensor of its list and skips the rest. -/
def RtFn.run : RtFn → List RtEvent
  | .kernel k => [.runKernel k]
  | .sync f b => f.run ++ [.syncBackend b]
  | .deallocFn ts => ts.filterMap (fun t => if t.2.isDynamic then some (.deallocBuffer t.1) else none)
  | .fnSeq f g => f.run ++ g.run

/-- `compiler::CompilerOptions` (the fields the factory reads). -/
structure CompilerOptions where
  executor : String
  heProfilingMode : Bool
  traceFilepath : String
  deriving DecidableEq, Repr

/-- The observers `ExecutorFactory` may attach: a `ProfileObserver` backed by
an `ExecTime` table built over the given backends (lines 500-510), or a
`TracingObserver` writing to a path (lines 432-437, 515-520). -/
inductive Observer where
  | profileObserver : List String → Observer
  | tracingObserver : String → Observer
  deriving DecidableEq, Repr

/-- The backend-facing ABI (`newContext` products): `genTensors` populates the
backend's registry with native tensors for the operands of its partial graph;
`genKernels` returns `(op index, FunctionSequence)` pairs.  Both are external
collaborators, so the factory model is parameterized by them. -/
structure BackendABI where
  genTensors : String → ContextData → TensorRegistry
  genKernels : String → ContextData → List (Nat × RtFn)

/-- The executor variants the factory instantiates. -/
inductive ExecKind where
  | linearExec
  | dataflowExec
  | parallelExec
  deriving DecidableEq, Repr

/-- What `ExecutorFactory` hands back, as far as the claims observe it: the
executor variant, the generated `code_map`, the attached observers, the linear
order, the dealloc plan, the final registries, plus the traversal orders of
the `genTensors` loop and of the kernel-generation loop. -/
structure ExecutorResult where
  kind : ExecKind
  codeMap : List (Nat × RtFn)
  observers : List Observer
  order : List Nat
  deallocListMap : List (Nat × List Nat)
  registries : List (String × TensorRegistry)
  contexts : List (String × ContextData)
  genTensorsTargets : List String
  kernelGenOrder : List String
  deriving DecidableEq, Repr

/-- The `genTensors` loop (lines 340-343, 456-459): every backend context's
`genTensors()` populates its registry (modelled by appending the
backend-generated native tensors to the registry contents). -/
def runGenTensors (abi : BackendABI) (contexts : List (String × ContextData))
    (regs : List (String × TensorRegistry)) : List (String × TensorRegistry) :=
  regs.map (fun p =>
    match alookup contexts p.1 with
    | some data => (p.1, p.2 ++ abi.genTensors p.1 data)
    | none => p)

/-- The kernel-generation loop of `createLinearExecutor` (lines 408-424): for
each ordered context, `genKernels()`; with `he_profiling_mode` wrap each
function sequence in a `SyncFunction` over the op's backend config; append a
`DeallocFunction` when the op's dealloc list is non-empty. -/
def genKernelsLinear (abi : BackendABI) (orderedContexts : List (String × ContextData))
    (lg : LoweredGraph) (profiling : Bool) (dmap : Nat → List (Nat × Tensor)) :
    List (Nat × RtFn) :=
  (orderedContexts.map (fun bc =>
    (abi.genKernels bc.1 bc.2).map (fun oc =>
      let fn1 := if profiling then RtFn.sync oc.2 (lg.operationBackend oc.1) else oc.2
      let fn2 := if dmap oc.1 = [] then fn1 else RtFn.fnSeq fn1 (RtFn.deallocFn (dmap oc.1))
      (oc.1, fn2)))).flatten

/-- The kernel-generation loop of `createDataflowExecutor` (lines 471-485):
as the linear one but with no dealloc shims. -/
def genKernelsDataflow (abi : BackendABI) (orderedContexts : List (String × ContextData))
    (lg : LoweredGraph) (profiling : Bool) : List (Nat × RtFn) :=
  (orderedContexts.map (fun bc =>
    (abi.genKernels bc.1 bc.2).map (fun oc =>
      let fn1 := if profiling then RtFn.sync oc.2 (lg.operationBackend oc.1) else oc.2
      (oc.1, fn1)))).flatten

/-- Modelled from the spec: `Linear::linearize` (outside the excerpt) computes
the linearized order — a topological order over the whole graph, a permutation
of its operation indices. -/
def linearize (lg : LoweredGraph) : List Nat :=
  lg.graph.topolSortOperations

/-- Propagation of a fallible construction step (the C++ control flow simply
lets the failure escape; successful values flow on). -/
def exceptCase {α β : Type} (x : Except CtorFailure α) (f : α → Except CtorFailure β) :
    Except CtorFailure β :=
  match x with
  | .error e => .error e
  | .ok a => f a

/-- `ExecutorFactory::createLinearExecutor` (lines 319-440).  `backends` is
`BackendManager::get().getAll()`.  Note the source copies the graph
(`auto graph = lowered_graph->graph()`) before `createBackendContexts`
mutates the lowered graph, and the dealloc simulation reads that copy. -/
def createLinearExecutor (abi : BackendABI) (backends : List String)
    (lg : LoweredGraph) (options : CompilerOptions) :
    Except CtorFailure ExecutorResult :=
  let graph := lg.graph
  let bc := createBackendContexts backends lg (options.executor = "Linear")
  let contexts := bc.contexts
  let regs0 : List (String × TensorRegistry) := contexts.map (fun p => (p.1, []))
  exceptCase
    (initSubgraphIOTensors regs0 bc.lgraph.graph
      ((bc.lgraph.graph.inputs ++ bc.lgraph.graph.outputs).dedup))
    (fun regs1 =>
    let order := linearize bc.lgraph
    let regs2 := runGenTensors abi contexts regs1
    exceptCase (prepareMigrantTensors bc.lgraph regs2) (fun regs3 =>
      let orderedContexts := orderBackendContext contexts
      let deallocListMap := deallocPlan graph order
      let dmap : Nat → List (Nat × Tensor) := fun opInd =>
        ((alookup deallocListMap opInd).getD []).map
          (fun ind => (ind, (getITensorAll regs3 ind).getD ⟨false, false, "", 0⟩))
      let codeMap := genKernelsLinear abi orderedContexts bc.lgraph
        options.heProfilingMode dmap
      .ok
        { kind := .linearExec
          codeMap := codeMap
          observers :=
            if options.traceFilepath ≠ "" then [.tracingObserver options.traceFilepath] else []
          order := order
          deallocListMap := deallocListMap
          registries := regs3
          contexts := contexts
          genTensorsTargets := contexts.map Prod.fst
          kernelGenOrder := orderedContexts.map Prod.fst }))

/-- `ExecutorFactory::createDataflowExecutor` (lines 442-523).  A
`ProfileObserver` over an `ExecTime` table built from the backends of the
backend contexts is attached only on the non-parallel branch (lines
489-513). -/
def createDataflowExecutor (abi : BackendABI) (backends : List String)
    (lg : LoweredGraph) (options : CompilerOptions) (parallel : Bool) :
    Except CtorFailure ExecutorResult :=
  let bc := createBackendContexts backends lg (options.executor = "Linear")
  let contexts := bc.contexts
  let regs0 : List (String × TensorRegistry) := contexts.map (fun p => (p.1, []))
  exceptCase
    (initSubgraphIOTensors regs0 bc.lgraph.graph
      ((bc.lgraph.graph.inputs ++ bc.lgraph.graph.outputs).dedup))
    (fun regs1 =>
    let regs2 := runGenTensors abi contexts regs1
    exceptCase (prepareMigrantTensors bc.lgraph regs2) (fun regs3 =>
      let orderedContexts := orderBackendContext contexts
      let codeMap := genKernelsDataflow abi orderedContexts bc.lgraph options.heProfilingMode
      let profileObs : List Observer :=
        if parallel = false ∧ options.heProfilingMode then
          [.profileObserver (contexts.map Prod.fst)]
        else []
      .ok
        { kind := if parallel then .parallelExec else .dataflowExec
          codeMap := codeMap
          observers := profileObs ++
            (if options.traceFilepath ≠ "" then [.tracingObserver options.traceFilepath] else [])
          order := []
          deallocListMap := []
          registries := regs3
          contexts := contexts
          genTensorsTargets := contexts.map Prod.fst
          kernelGenOrder := orderedContexts.map Prod.fst }))

/-- `ExecutorFactory::create` with the `_map` filled by the constructor
(lines 240-254): the three registered keys dispatch to the two builders;
`_map.at(options.executor)` raises `std::out_of_range` for any other value —
the factory raises no `ConfigError` here. -/
def factoryCreate (abi : BackendABI) (backends : List String) (lg : LoweredGraph)
    (options : CompilerOptions) : Except CtorFailure ExecutorResult :=
  if options.executor = "Linear" then createLinearExecutor abi backends lg options
  else if options.executor = "Dataflow" then createDataflowExecutor abi backends lg options false
  else if options.executor = "Parallel" then createDataflowExecutor abi backends lg options true
  else .error (.mapAtOutOfRange options.executor)

/-- `backend_contexts.at(b)->tensor_registry->getITensor(ind)`: the lookup of
an operand's tensor in one backend's registry. -/
def regLookup (regs : List (String × TensorRegistry)) (b : String) (ind : Nat) : Option Tensor :=
  alookup ((alookup regs b).getD []) ind

/-- The number of operations of `l` that read operand `ind`
(each operation counted once: duplicated inputs are removed). -/
def countUsers (g : Graph) (l : List Nat) (ind : Nat) : Nat :=
  (l.filter (fun o => (g.operationAt o).inputList.contains ind)).length

/-- The use-counter state of the dealloc simulation after the ops of `p` have
been walked. -/
def usesAfter (g : Graph) (p : List Nat) : Nat → Nat :=
  fun ind => initialUses g ind - countUsers g p ind

/-- Closed form of the dealloc simulation: the dealloc list of each op `o` of
the order collects the inputs of `o` whose counter (as left by the prefix
before `o`) reaches zero at `o` and that pass the Variable/graph-IO filter. -/
def planFrom (g : Graph) (modelIOList : List Nat) (pre : List Nat) :
    List Nat → List (Nat × List Nat)
  | [] => []
  | o :: rest =>
      (o, (g.operationAt o).inputList.filter (deadCond g modelIOList (usesAfter g pre))) ::
        planFrom g modelIOList (pre ++ [o]) rest

/-- Spec invariant T1 on a registry collection: any two registries holding an
operand index hold the same tensor (so the union lookup is unambiguous). -/
def Coherent (regs : List (String × TensorRegistry)) : Prop :=
  ∀ b ind t, regLookup regs b ind = some t → getITensorAll regs ind = some t

/-- Spec invariant T1, stated entry-wise (decidable on concrete registries):
any two registry entries for the same operand index hold the same tensor. -/
def UniqueTensors (regs : List (String × TensorRegistry)) : Prop :=
  ∀ p ∈ regs, ∀ p' ∈ regs, ∀ e ∈ p.2, ∀ e' ∈ p'.2, e.1 = e'.1 → e.2 = e'.2

instance (regs : List (String × TensorRegistry)) : Decidable (UniqueTensors regs) := by
  unfold UniqueTensors
  infer_instance

/-- How `prepareMigrantTensors` may evolve the registries, relative to the
starting collection `regs0`: the backend keys are unchanged, every existing
entry is kept as is, and every new entry sits at a previously unresolved
(backend, index) slot and holds the portable tensor the union lookup of
`regs0` finds for that index. -/
def MigrantInv (regs0 regs : List (String × TensorRegistry)) : Prop :=
  regs.map Prod.fst = regs0.map Prod.fst ∧
  (∀ b ind t, regLookup regs0 b ind = some t → regLookup regs b ind = some t) ∧
  (∀ b ind t, regLookup regs b ind = some t →
      regLookup regs0 b ind = some t ∨
        (regLookup regs0 b ind = none ∧ getITensorAll regs0 ind = some t ∧ t.portable = true))

/-- Whether a construction result is a success. -/
def resultOk {α : Type} : Except CtorFailure α → Option α
  | .ok a => some a
  | .error _ => none

/-- Whether a construction result failed with the `ConfigError` kind. -/
def resultIsConfigError {α : Type} : Except CtorFailure α → Bool
  | .error (.configError _) => true
  | _ => false

/-- Whether a construction result failed with `std::out_of_range`. -/
def resultIsOutOfRange {α : Type} : Except CtorFailure α → Bool
  | .error (.mapAtOutOfRange _) => true
  | _ => false

/-- Whether a construction result failed with a failed `assert`. -/
def resultIsAssertionFailure {α : Type} : Except CtorFailure α → Bool
  | .error (.assertionFailure _) => true
  | _ => false

/-- Whether any `ProfileObserver` occurs in an observer list. -/
def hasProfileObserver (obs : List Observer) : Bool :=
  obs.any (fun o => match o with | .profileObserver _ => true | _ => false)

/-- The executor variant of a successful construction. -/
def resultKind : Except CtorFailure ExecutorResult → Option ExecKind
  | .ok r => some r.kind
  | .error _ => none

/-- The observers of a successful construction. -/
def okObservers : Except CtorFailure ExecutorResult → List Observer
  | .ok r => r.observers
  | .error _ => []

/-- The payload of a successful construction (a dummy on failure). -/
def okResult : Except CtorFailure ExecutorResult → ExecutorResult
  | .ok r => r
  | .error _ => ⟨.linearExec, [], [], [], [], [], [], [], []⟩

/-! Concrete inputs used by witnesses and counterexamples. -/

/-- Example graph for the dealloc plan: operand 0 is a constant read by op 10,
operand 2 a plain tensor read by op 10, operand 1 the graph output written by
op 10. -/
def gEx1 : Graph :=
  { operands :=
      [(0, ⟨0, false, true, some 7⟩), (1, ⟨0, false, false, none⟩), (2, ⟨0, false, false, none⟩)]
    operations := [(10, ⟨[some 0, some 2], [some 1]⟩)]
    inputs := []
    outputs := [1]
    layout := 0 }

/-- Example registries for migrant wiring: backend `cpu` owns nothing,
backend `acl` owns a non-portable tensor for operand 0. -/
def regsEx2 : List (String × TensorRegistry) :=
  [("cpu", []), ("acl", [(0, ⟨false, false, "acl", 0⟩)])]

/-- Example registries for migrant wiring with a portable tensor. -/
def regsEx2p : List (String × TensorRegistry) :=
  [("cpu", []), ("acl", [(0, ⟨true, false, "acl", 0⟩)])]

/-- Example lowered graph for migrant wiring: one op on backend `cpu` reading
operand 0 (owned by `acl`). -/
def lgEx2 : LoweredGraph :=
  { graph :=
      { operands := [(0, ⟨0, false, false, none⟩)]
        operations := [(20, ⟨[some 0], []⟩)]
        inputs := []
        outputs := []
        layout := 0 }
    operandDefFactors := fun _ => [⟨"acl", 0⟩]
    operationBackend := fun _ => "cpu" }

/-- Example context list for backend ordering. -/
def ctxsEx4 : List (String × ContextData) :=
  [("builtin", emptyContextData), ("cpu", emptyContextData)]

/-- Example registries with no builtin backend. -/
def regsEx5 : List (String × TensorRegistry) :=
  [("cpu", [])]

/-- A minimal lowered graph on the builtin backend alone: one op producing
the graph output, every operand lowered to `builtin`. -/
def lgEx : LoweredGraph :=
  { graph :=
      { operands := [(0, ⟨0, false, false, none⟩)]
        operations := [(0, ⟨[], [some 0]⟩)]
        inputs := []
        outputs := [0]
        layout := 0 }
    operandDefFactors := fun _ => [⟨"builtin", 0⟩]
    operationBackend := fun _ => "builtin" }

/-- A trivial backend ABI: no native tensors, no kernels. -/
def abiEx : BackendABI :=
  { genTensors := fun _ _ => []
    genKernels := fun _ _ => [] }

/-- A backend ABI producing one kernel for op 0. -/
def abiEx1 : BackendABI :=
  { genTensors := fun _ _ => []
    genKernels := fun _ _ => [(0, RtFn.kernel 1)] }

/-- Options with an executor value outside the registered map keys. -/
def optsFoo : CompilerOptions := ⟨"Foo", false, ""⟩

/-- Parallel executor with profiling mode on. -/
def optsParallelProf : CompilerOptions := ⟨"Parallel", true, ""⟩

/-- Dataflow executor with profiling mode on. -/
def optsDataflowProf : CompilerOptions := ⟨"Dataflow", true, ""⟩

/-- Linear executor, no profiling. -/
def optsLinear : CompilerOptions := ⟨"Linear", false, ""⟩

/-- Linear executor with profiling mode on. -/
def optsLinearProf : CompilerOptions := ⟨"Linear", true, ""⟩

end ONE

namespace ONE

/-! Helper lemmas about association lists. -/

theorem alookup_append {α β : Type} [DecidableEq α] (l1 l2 : List (α × β)) (a : α) :
    alookup (l1 ++ l2) a =
      match alookup l1 a with
      | some v => some v
      | none => alookup l2 a := by
  induction l1 with
  | nil => simp [alookup]
  | cons p rest ih =>
    by_cases h : p.1 = a
    · simp [alookup, h]
    · simp [alookup, h, ih]

theorem alookup_aupdate {α β : Type} [DecidableEq α] (d : β) (m : List (α × β)) (a : α)
    (f : β → β) (b : α) :
    alookup (aupdate d m a f) b =
      if b = a then some (f ((alookup m a).getD d)) else alookup m b := by
  induction m with
  | nil =>
    by_cases h : b = a
    · subst h; simp [aupdate, alookup]
    · have h' : ¬ a = b := fun hh => h hh.symm
      simp [aupdate, alookup, h, h']
  | cons p rest ih =>
    by_cases hpa : p.1 = a
    · by_cases hba : b = a
      · subst hba
        simp [aupdate, alookup, hpa]
      · have hpb : ¬ p.1 = b := fun hh => hba (hpa.symm.trans hh).symm
        have hab : ¬ a = b := fun hh => hba hh.symm
        simp [aupdate, alookup, hpa, hpb, hba, hab]
    · by_cases hpb : p.1 = b
      · have hba : ¬ b = a := fun hh => hpa (hpb.trans hh)
        simp [aupdate, alookup, hpa, hpb, hba]
      · simp [aupdate, alookup, hpa, hpb, ih]

theorem alookup_map_value {α β γ : Type} [DecidableEq α] (l : List (α × β)) (F : β → γ)
    (b : α) :
    alookup (l.map (fun p => (p.1, F p.2))) b = (alookup l b).map F := by
  induction l with
  | nil => simp [alookup]
  | cons p rest ih =>
    by_cases h : p.1 = b
    · subst h; simp [alookup]
    · simp [alookup, h, ih]

theorem alookup_map_of_mem {α β : Type} [DecidableEq α] (l : List α) (g : α → β) (b : α)
    (hb : b ∈ l) :
    alookup (l.map (fun a => (a, g a))) b = some (g b) := by
  induction hb with
  | head rest => simp [alookup]
  | tail a hmem ih =>
    by_cases h : a = b
    · subst h; simp [alookup]
    · simp [alookup, h, ih]

theorem exceptCase_ok {α β : Type} (x : Except CtorFailure α) (f : α → Except CtorFailure β)
    (b : β) (h : exceptCase x f = .ok b) : ∃ a, x = .ok a ∧ f a = .ok b := by
  cases x with
  | error e => cases h
  | ok a => exact ⟨a, rfl, h⟩

/-! Claim C4: backend traversal order for kernel generation. -/

theorem obc_aux :
    ∀ (l A B : List (String × ContextData)),
      (∀ x ∈ A, x.1 ≠ "builtin") → (∀ x ∈ B, x.1 = "builtin") →
      ∃ A' B',
        l.foldl (fun ordered p => if p.1 = "builtin" then ordered ++ [p] else p :: ordered)
            (A ++ B) = A' ++ B' ∧
          (∀ x ∈ A', x.1 ≠ "builtin") ∧ (∀ x ∈ B', x.1 = "builtin") ∧
          (A' ++ B').Perm ((A ++ B) ++ l) := by
  intro l
  induction l with
  | nil =>
    intro A B hA hB
    exact ⟨A, B, rfl, hA, hB, by simp⟩
  | cons p t ih =>
    intro A B hA hB
    by_cases hp : p.1 = "builtin"
    · have hB' : ∀ x ∈ B ++ [p], x.1 = "builtin" := by
        intro x hx
        rcases List.mem_append.mp hx with hx | hx
        · exact hB x hx
        · rw [List.mem_singleton] at hx
          subst hx
          exact hp
      obtain ⟨A', B', heq, hA', hB'', hperm⟩ := ih A (B ++ [p]) hA hB'
      refine ⟨A', B', ?_, hA', hB'', ?_⟩
      · have hfold :
            List.foldl
                (fun ordered q => if q.1 = "builtin" then ordered ++ [q] else q :: ordered)
                (A ++ B) (p :: t)
              = List.foldl
                (fun ordered q => if q.1 = "builtin" then ordered ++ [q] else q :: ordered)
                (A ++ (B ++ [p])) t := by
          simp [hp]
        rw [hfold]
        exact heq
      · refine hperm.trans ?_
        have h1 : (A ++ (B ++ [p])) ++ t = (A ++ B) ++ (p :: t) := by simp
        rw [h1]
    · have hA' : ∀ x ∈ p :: A, x.1 ≠ "builtin" := by
        intro x hx
        rcases List.mem_cons.mp hx with hx | hx
        · subst hx; exact hp
        · exact hA x hx
      obtain ⟨A', B', heq, hA'', hB', hperm⟩ := ih (p :: A) B hA' hB
      refine ⟨A', B', ?_, hA'', hB', ?_⟩
      · have hfold :
            List.foldl
                (fun ordered q => if q.1 = "builtin" then ordered ++ [q] else q :: ordered)
                (A ++ B) (p :: t)
              = List.foldl
                (fun ordered q => if q.1 = "builtin" then ordered ++ [q] else q :: ordered)
                ((p :: A) ++ B) t := by
          simp [hp]
        rw [hfold]
        exact heq
      · refine hperm.trans ?_
        have h1 : ((p :: A) ++ B) ++ t = p :: ((A ++ B) ++ t) := by simp
        rw [h1]
        exact List.perm_middle.symm

theorem orderBackendContext_split (contexts : List (String × ContextData)) :
    ∃ A B,
      orderBackendContext contexts = A ++ B ∧
        (∀ x ∈ A, x.1 ≠ "builtin") ∧ (∀ x ∈ B, x.1 = "builtin") ∧
        (A ++ B).Perm contexts := by
  have h := obc_aux contexts [] [] (by intro x hx; cases hx) (by intro x hx; cases hx)
  obtain ⟨A, B, heq, hA, hB, hperm⟩ := h
  exact ⟨A, B, heq, hA, hB, by simpa using hperm⟩

/-- For a list split into a non-builtin block followed by a builtin block,
every builtin position comes after every non-builtin position. -/
theorem split_get_lt {γ : Type} (l A B : List γ) (P : γ → Prop) (heq : l = A ++ B)
    (hA : ∀ x ∈ A, ¬ P x) (hB : ∀ x ∈ B, P x)
    (i j : Nat) (hi : i < l.length) (hj : j < l.length)
    (hpi : P (l.get ⟨i, hi⟩)) (hpj : ¬ P (l.get ⟨j, hj⟩)) : j < i := by
  subst heq
  have hiA : ¬ i < A.length := by
    intro hlt
    have hmem : (A ++ B).get ⟨i, hi⟩ ∈ A := by
      have hgl : (A ++ B).get ⟨i, hi⟩ = A.get ⟨i, hlt⟩ := by
        simp [List.get_eq_getElem]
        exact List.getElem_append_left hlt
      rw [hgl]
      exact List.get_mem _ _ _
    exact hA _ hmem hpi
  have hjA : j < A.length := by
    by_contra hge
    have hge' : A.length ≤ j := Nat.le_of_not_lt hge
    have hjb : j - A.length < B.length := by
      have := hj
      rw [List.length_append] at this
      omega
    have hmem : (A ++ B).get ⟨j, hj⟩ ∈ B := by
      have hgr : (A ++ B).get ⟨j, hj⟩ = B.get ⟨j - A.length, hjb⟩ := by
        simp [List.get_eq_getElem]
        rw [List.getElem_append_right hge']
      rw [hgr]
      exact List.get_mem _ _ _
    exact hpj (hB _ hmem)
  omega

/-- Claim C4: in the kernel-generation traversal built by
`orderBackendContext`, the backend contexts are a permutation of the input
contexts, every non-builtin context comes before every builtin one (the
builtin backend is strictly last), and `createLinearExecutor` generates
kernels following exactly that traversal — so the builtin backend's
`genKernels` runs only after every other backend's. -/
theorem C4_builtin_backend_last (contexts : List (String × ContextData)) :
    (orderBackendContext contexts).Perm contexts ∧
      (∀ i j (hi : i < (orderBackendContext contexts).length)
          (hj : j < (orderBackendContext contexts).length),
          ((orderBackendContext contexts).get ⟨i, hi⟩).1 = "builtin" →
          ((orderBackendContext contexts).get ⟨j, hj⟩).1 ≠ "builtin" → j < i) ∧
      (∀ abi backends lg opts res,
          createLinearExecutor abi backends lg opts = .ok res →
          res.kernelGenOrder = (orderBackendContext res.contexts).map Prod.fst) := by
  obtain ⟨A, B, heq, hA, hB, hperm⟩ := orderBackendContext_split contexts
  refine ⟨heq ▸ hperm, ?_, ?_⟩
  · intro i j hi hj hbi hbj
    exact split_get_lt (orderBackendContext contexts) A B (fun x => x.1 = "builtin")
      heq hA hB i j hi hj hbi hbj
  · intro abi backends lg opts res hok
    unfold createLinearExecutor at hok
    obtain ⟨r1, h1, hok1⟩ := exceptCase_ok _ _ _ hok
    obtain ⟨r3, h3, hok3⟩ := exceptCase_ok _ _ _ hok1
    cases hok3
    rfl

/-- Witness for C4 at a concrete context list. -/
theorem C4_builtin_backend_last_witness :
    0 < 1 ∧ (orderBackendContext ctxsEx4).Perm ctxsEx4 :=
  ⟨(C4_builtin_backend_last ctxsEx4).2.1 1 0 (by decide) (by decide) (by decide) (by decide),
   (C4_builtin_backend_last ctxsEx4).1⟩

/-! Structural lemmas about the partitioner. -/

theorem foldl_pair_split {σ τ γ : Type} (f : σ → γ → σ) (g : τ → γ → τ) :
    ∀ (l : List γ) (s0 : σ) (t0 : τ),
      l.foldl (fun st x => (f st.1 x, g st.2 x)) (s0, t0) = (l.foldl f s0, l.foldl g t0) := by
  intro l
  induction l with
  | nil => intro s0 t0; rfl
  | cons x t ih => intro s0 t0; simp only [List.foldl_cons]; exact ih _ _

theorem foldl_append_singleton {γ δ : Type} (h : γ → δ) :
    ∀ (l : List γ) (acc : List δ),
      l.foldl (fun acc x => acc ++ [h x]) acc = acc ++ l.map h := by
  intro l
  induction l with
  | nil => intro acc; simp
  | cons x t ih => intro acc; simp [ih]

theorem separateOperands_eq (lg : LoweredGraph) (ctxs0 : List (String × ContextData)) :
    separateOperands lg ctxs0 =
      (lg.graph.operands.foldl (operandSepStep lg) ctxs0,
       lg.graph.operands.map (releasedOperand lg)) := by
  unfold separateOperands
  rw [foldl_pair_split (operandSepStep lg) (fun acc p => acc ++ [releasedOperand lg p])]
  rw [foldl_append_singleton]
  rfl

theorem aupdate_fst_mem {α β : Type} [DecidableEq α] (d : β) (m : List (α × β)) (a : α)
    (f : β → β) (b : α) (hb : b ∈ (aupdate d m a f).map Prod.fst) :
    b ∈ m.map Prod.fst ∨ b = a := by
  induction m with
  | nil =>
    simp [aupdate] at hb
    exact Or.inr hb
  | cons p rest ih =>
    by_cases h : p.1 = a
    · rw [aupdate, if_pos h] at hb
      simp at hb
      rcases hb with hb | hb
      · exact Or.inl (by simp [hb])
      · exact Or.inl (by simp [hb])
    · rw [aupdate, if_neg h] at hb
      simp at hb
      rcases hb with hb | hb
      · exact Or.inl (by simp [hb])
      · rcases ih (by simpa using hb) with hh | hh
        · exact Or.inl (by simp; exact Or.inr (by simpa using hh))
        · exact Or.inr hh

theorem foldl_keys_subset {γ α β : Type} [DecidableEq α] (S : α → Prop)
    (step : List (α × β) → γ → List (α × β)) :
    ∀ (l : List γ) (m0 : List (α × β)),
      (∀ m x, x ∈ l → ∀ b, b ∈ (step m x).map Prod.fst → b ∈ m.map Prod.fst ∨ S b) →
      (∀ b ∈ m0.map Prod.fst, S b) →
      ∀ b ∈ (l.foldl step m0).map Prod.fst, S b := by
  intro l
  induction l with
  | nil => intro m0 _ h0 b hb; exact h0 b hb
  | cons x t ih =>
    intro m0 hstep h0 b hb
    refine ih (step m0 x) (fun m y hy => hstep m y (List.mem_cons_of_mem _ hy)) ?_ b hb
    intro c hc
    rcases hstep m0 x (List.mem_cons_self _ _) c hc with hc' | hc'
    · exact h0 c hc'
    · exact hc'

theorem map_fst_pairmap {α β γ : Type} (l : List (α × β)) (F : α → β → γ) :
    (l.map (fun p => (p.1, F p.1 p.2))).map Prod.fst = l.map Prod.fst := by
  induction l with
  | nil => rfl
  | cons p rest ih => simp [ih]

theorem initialContextMap_fst (backends : List String) (lg : LoweredGraph) :
    (initialContextMap backends lg).map Prod.fst = backends := by
  unfold initialContextMap
  rw [List.map_map]
  have : (Prod.fst ∘ fun b => ((b : String), { emptyContextData with
      pgraph := { emptyContextData.pgraph with layout := lg.graph.layout } })) = id := by
    funext x; rfl
  rw [this, List.map_id]

/-- Every backend key of the context map either was registered in the backend
manager or is a backend named by the lower info of some operand or some
operation. -/
theorem createBackendContexts_keys (backends : List String) (lg : LoweredGraph)
    (lin : Bool) (b : String)
    (hb : b ∈ (createBackendContexts backends lg lin).contexts.map Prod.fst) :
    b ∈ backends ∨
      (∃ p ∈ lg.graph.operands, lg.operandDefFactors p.1 ≠ [] ∧
        (getOnlyElement (lg.operandDefFactors p.1)).backend = b) ∨
      (∃ q ∈ lg.graph.operations, lg.operationBackend q.1 = b) := by
  have hb' : b ∈ (separateOperations (cbcMutatedLg backends lg) (cbcOperandPhase backends lg).2
      (cbcOperandPhase backends lg).1).map Prod.fst := by
    have h := hb
    unfold createBackendContexts at h
    simpa [map_fst_pairmap] using h
  set S : String → Prop := fun c =>
    c ∈ backends ∨
      (∃ p ∈ lg.graph.operands, lg.operandDefFactors p.1 ≠ [] ∧
        (getOnlyElement (lg.operandDefFactors p.1)).backend = c) ∨
      (∃ q ∈ lg.graph.operations, lg.operationBackend q.1 = c) with hS
  have hop : ∀ c ∈ (cbcOperandPhase backends lg).1.map Prod.fst, S c := by
    intro c hc
    have hc' : c ∈ (lg.graph.operands.foldl (operandSepStep lg)
        (initialContextMap backends lg)).map Prod.fst := by
      unfold cbcOperandPhase at hc
      rw [separateOperands_eq] at hc
      exact hc
    refine foldl_keys_subset S (operandSepStep lg) lg.graph.operands _ ?_ ?_ c hc'
    · intro m p hp d hd
      unfold operandSepStep at hd
      by_cases h : lg.operandDefFactors p.1 = []
      · rw [if_pos h] at hd
        exact Or.inl hd
      · rw [if_neg h] at hd
        rcases aupdate_fst_mem _ _ _ _ _ hd with hd' | hd'
        · exact Or.inl hd'
        · exact Or.inr (Or.inr (Or.inl ⟨p, hp, h, hd'.symm⟩))
    · intro d hd
      rw [initialContextMap_fst] at hd
      exact Or.inl hd
  refine foldl_keys_subset S
    (operationSepStep (cbcMutatedLg backends lg) (cbcOperandPhase backends lg).2)
    lg.graph.operations _ ?_ hop b hb'
  · intro m q hq c hc
    rcases aupdate_fst_mem _ _ _ _ _ hc with hc' | hc'
    · exact Or.inl hc'
    · exact Or.inr (Or.inr (Or.inr ⟨q, hq, hc'.symm⟩))

/-! Claim C5: missing builtin backend during IOTensor wiring. -/

theorem builtin_fold_none (regs : List (String × TensorRegistry))
    (h : ∀ p ∈ regs, p.1 ≠ "builtin") :
    ∀ acc0 : Option String,
      regs.foldl (fun acc p => if p.1 = "builtin" then some p.1 else acc) acc0 = acc0 := by
  induction regs with
  | nil => intro acc0; rfl
  | cons p rest ih =>
    intro acc0
    have hp : p.1 ≠ "builtin" := h p (List.mem_cons_self _ _)
    simp only [List.foldl_cons, if_neg hp]
    exact ih (fun q hq => h q (List.mem_cons_of_mem _ hq)) acc0

theorem exceptCase_error {α β : Type} (x : Except CtorFailure α)
    (f : α → Except CtorFailure β) (e : CtorFailure) (h : x = .error e) :
    exceptCase x f = .error e := by
  subst h; rfl

theorem initSubgraphIOTensors_no_builtin (regs : List (String × TensorRegistry))
    (g : Graph) (indices : List Nat) (h : ∀ p ∈ regs, p.1 ≠ "builtin") :
    initSubgraphIOTensors regs g indices = .error (.assertionFailure "builtin_tensor_reg") := by
  unfold initSubgraphIOTensors
  rw [builtin_fold_none regs h none]

/-- Claim C5 (amended): if no builtin backend tensor registry is present among
the backend contexts, IOTensor wiring fails — but through the source's
`assert(builtin_tensor_reg)` (an assertion failure, i.e. abort), not a
`ConfigError` — and no executor is returned: both executor builders propagate
the failure. -/
theorem C5_no_builtin_fails (regs : List (String × TensorRegistry)) (g : Graph)
    (indices : List Nat) (h : ∀ p ∈ regs, p.1 ≠ "builtin") :
    initSubgraphIOTensors regs g indices = .error (.assertionFailure "builtin_tensor_reg") ∧
      ∀ (abi : BackendABI) (backends : List String) (lg : LoweredGraph)
        (opts : CompilerOptions),
        "builtin" ∉ backends →
        (∀ q ∈ lg.graph.operations, lg.operationBackend q.1 ≠ "builtin") →
        (∀ p ∈ lg.graph.operands, lg.operandDefFactors p.1 ≠ [] →
          (getOnlyElement (lg.operandDefFactors p.1)).backend ≠ "builtin") →
        createLinearExecutor abi backends lg opts
            = .error (.assertionFailure "builtin_tensor_reg") ∧
          ∀ par : Bool, createDataflowExecutor abi backends lg opts par
            = .error (.assertionFailure "builtin_tensor_reg") := by
  constructor
  · exact initSubgraphIOTensors_no_builtin regs g indices h
  · intro abi backends lg opts hman hops hoperands
    have hkeys : ∀ p ∈ (createBackendContexts backends lg (opts.executor = "Linear")).contexts.map
        (fun q => (q.1, ([] : TensorRegistry))), p.1 ≠ "builtin" := by
      intro p hp
      rcases List.mem_map.mp hp with ⟨q, hq, rfl⟩
      intro hcontra
      have hqmem : q.1 ∈ (createBackendContexts backends lg
          (opts.executor = "Linear")).contexts.map Prod.fst :=
        List.mem_map.mpr ⟨q, hq, rfl⟩
      rcases createBackendContexts_keys backends lg _ q.1 hqmem with hk | hk | hk
      · exact hman (hcontra ▸ hk)
      · rcases hk with ⟨pp, hpp, hne, hbk⟩
        exact hoperands pp hpp hne (hbk.trans hcontra)
      · rcases hk with ⟨qq, hqq, hbk⟩
        exact hops qq hqq (hbk.trans hcontra)
    have hinit := initSubgraphIOTensors_no_builtin
      ((createBackendContexts backends lg (opts.executor = "Linear")).contexts.map
        (fun q => (q.1, ([] : TensorRegistry))))
      (createBackendContexts backends lg (opts.executor = "Linear")).lgraph.graph
      (((createBackendContexts backends lg (opts.executor = "Linear")).lgraph.graph.inputs ++
        (createBackendContexts backends lg (opts.executor = "Linear")).lgraph.graph.outputs).dedup)
      hkeys
    refine ⟨?_, ?_⟩
    · unfold createLinearExecutor
      exact exceptCase_error _ _ _ hinit
    · intro par
      unfold createDataflowExecutor
      exact exceptCase_error _ _ _ hinit

/-- Counterexample to C5 as stated: with no builtin registry the wiring does
fail and no executor is produced, but the failure is the assertion, not a
`ConfigError`. -/
theorem C5_counterexample :
    resultIsAssertionFailure (initSubgraphIOTensors regsEx5 gEx1 []) = true ∧
    resultIsConfigError (initSubgraphIOTensors regsEx5 gEx1 []) = false ∧
    resultOk (initSubgraphIOTensors regsEx5 gEx1 []) = none := by
  decide

/-- Witness for C5 at a concrete registry collection with no builtin. -/
theorem C5_no_builtin_fails_witness :
    (∀ p ∈ regsEx5, p.1 ≠ "builtin") ∧
    initSubgraphIOTensors regsEx5 gEx1 [] = .error (.assertionFailure "builtin_tensor_reg") :=
  ⟨by decide, (C5_no_builtin_fails regsEx5 gEx1 [] (by decide)).1⟩

/-! Registry lookup lemmas for the migrant-wiring claim. -/

theorem alookup_mem {α β : Type} [DecidableEq α] (m : List (α × β)) (b : α) (v : β)
    (h : alookup m b = some v) : (b, v) ∈ m := by
  induction m with
  | nil => cases h
  | cons p rest ih =>
    by_cases hp : p.1 = b
    · rw [alookup, if_pos hp] at h
      cases h
      subst hp
      exact List.mem_cons_self _ _
    · rw [alookup, if_neg hp] at h
      exact List.mem_cons_of_mem _ (ih h)

theorem alookup_some_mem_fst {α β : Type} [DecidableEq α] (m : List (α × β)) (b : α) (v : β)
    (h : alookup m b = some v) : b ∈ m.map Prod.fst := by
  induction m with
  | nil => cases h
  | cons p rest ih =>
    by_cases hp : p.1 = b
    · simp [hp]
    · rw [alookup, if_neg hp] at h
      simp [ih h]

theorem alookup_isSome_iff_mem_fst {α β : Type} [DecidableEq α] (m : List (α × β)) (b : α) :
    (alookup m b).isSome = true ↔ b ∈ m.map Prod.fst := by
  constructor
  · intro h
    rcases hv : alookup m b with _ | v
    · rw [hv] at h; cases h
    · exact alookup_some_mem_fst m b v hv
  · intro h
    induction m with
    | nil => cases h
    | cons p rest ih =>
      by_cases hp : p.1 = b
      · rw [alookup, if_pos hp]; rfl
      · rw [alookup, if_neg hp]
        rcases List.mem_cons.mp h with h' | h'
        · exact absurd h'.symm hp
        · exact ih h'

theorem alookup_of_mem_nodup {α β : Type} [DecidableEq α] (m : List (α × β))
    (hnd : (m.map Prod.fst).Nodup) (p : α × β) (hp : p ∈ m) :
    alookup m p.1 = some p.2 := by
  induction m with
  | nil => cases hp
  | cons q rest ih =>
    rcases List.mem_cons.mp hp with h | h
    · subst h
      rw [alookup, if_pos rfl]
    · have hq : q.1 ≠ p.1 := by
        intro hh
        have : q.1 ∈ rest.map Prod.fst := by
          rw [hh]
          exact List.mem_map.mpr ⟨p, h, rfl⟩
        exact (List.nodup_cons.mp hnd).1 this
      rw [alookup, if_neg hq]
      exact ih (List.nodup_cons.mp hnd).2 h

theorem alookup_map_cond {β : Type} (regs : List (String × β)) (b : String) (f : β → β)
    (b' : String) :
    alookup (regs.map (fun p => if p.1 = b then (p.1, f p.2) else p)) b' =
      if b' = b then (alookup regs b').map f else alookup regs b' := by
  induction regs with
  | nil => by_cases h : b' = b <;> simp [alookup, h]
  | cons p rest ih =>
    by_cases hp : p.1 = b
    · by_cases hp' : p.1 = b'
      · have hb : b' = b := hp'.symm.trans hp
        simp [alookup, hp, hp', hb, ih]
      · have : ¬ ((if p.1 = b then (p.1, f p.2) else p)).1 = b' := by
          rw [if_pos hp]; exact hp'
        rw [List.map_cons, alookup, if_neg this, ih, alookup, if_neg hp']
    · by_cases hp' : p.1 = b'
      · have hb : ¬ b' = b := fun hh => hp (hp'.trans hh)
        have : ((if p.1 = b then (p.1, f p.2) else p)).1 = b' := by
          rw [if_neg hp]; exact hp'
        rw [List.map_cons, alookup, if_pos this, if_neg hp, alookup, if_pos hp', if_neg hb]
      · have : ¬ ((if p.1 = b then (p.1, f p.2) else p)).1 = b' := by
          rw [if_neg hp]; exact hp'
        rw [List.map_cons, alookup, if_neg this, ih, alookup, if_neg hp']

theorem setMigrant_fst (regs : List (String × TensorRegistry)) (b : String) (ind : Nat)
    (t : Tensor) : (setMigrantTensor regs b ind t).map Prod.fst = regs.map Prod.fst := by
  unfold setMigrantTensor
  induction regs with
  | nil => rfl
  | cons p rest ih =>
    by_cases hp : p.1 = b <;> simp [hp, ih]

theorem regLookup_setMigrant (regs : List (String × TensorRegistry)) (b : String)
    (reg : TensorRegistry) (ind : Nat) (t : Tensor) (hsome : alookup regs b = some reg)
    (b' : String) (ind' : Nat) :
    regLookup (setMigrantTensor regs b ind t) b' ind' =
      if b' = b then
        (if (alookup reg ind').isSome then alookup reg ind'
          else if ind' = ind then some t else none)
      else regLookup regs b' ind' := by
  unfold regLookup setMigrantTensor
  rw [alookup_map_cond regs b (fun reg => reg ++ [(ind, t)]) b']
  by_cases hb : b' = b
  · rw [if_pos hb, if_pos hb, hb, hsome]
    show alookup (reg ++ [(ind, t)]) ind' = _
    rw [alookup_append]
    rcases h : alookup reg ind' with _ | u
    · simp only [Option.isSome_none, Bool.false_eq_true, if_false]
      by_cases hi : ind = ind'
      · rw [alookup, if_pos hi, if_pos hi.symm]
      · rw [alookup, if_neg hi, if_neg (fun hh => hi hh.symm)]
        rfl
    · rfl
  · rw [if_neg hb, if_neg hb]

theorem getITensorAll_mem (regs : List (String × TensorRegistry)) (ind : Nat) (t : Tensor)
    (h : getITensorAll regs ind = some t) : ∃ p ∈ regs, alookup p.2 ind = some t := by
  induction regs with
  | nil => cases h
  | cons p rest ih =>
    rw [getITensorAll] at h
    rcases hp : alookup p.2 ind with _ | u
    · rw [hp] at h
      obtain ⟨q, hq, hq'⟩ := ih h
      exact ⟨q, List.mem_cons_of_mem _ hq, hq'⟩
    · rw [hp] at h
      cases h
      exact ⟨p, List.mem_cons_self _ _, hp⟩

theorem mem_getITensorAll_isSome (regs : List (String × TensorRegistry))
    (p : String × TensorRegistry) (hp : p ∈ regs) (ind : Nat)
    (h : (alookup p.2 ind).isSome = true) : (getITensorAll regs ind).isSome = true := by
  induction regs with
  | nil => cases hp
  | cons q rest ih =>
    rw [getITensorAll]
    rcases hq : alookup q.2 ind with _ | u
    · rcases List.mem_cons.mp hp with h' | h'
      · subst h'
        rw [hq] at h
        cases h
      · exact ih h'
    · rfl

theorem uniqueTensors_coherent (regs : List (String × TensorRegistry))
    (hu : UniqueTensors regs) : Coherent regs := by
  intro b ind t h
  unfold regLookup at h
  rcases hb : alookup regs b with _ | reg
  · rw [hb] at h
    cases h
  · rw [hb] at h
    have h' : alookup reg ind = some t := h
    have hpmem : (b, reg) ∈ regs := alookup_mem _ _ _ hb
    have hsome : (getITensorAll regs ind).isSome = true :=
      mem_getITensorAll_isSome regs (b, reg) hpmem ind
        (by show (alookup reg ind).isSome = true; rw [h']; rfl)
    rcases hg : getITensorAll regs ind with _ | u
    · rw [hg] at hsome; cases hsome
    · obtain ⟨q, hq, hq'⟩ := getITensorAll_mem regs ind u hg
      have het : (ind, t) ∈ reg := alookup_mem _ _ _ h'
      have heu : (ind, u) ∈ q.2 := alookup_mem _ _ _ hq'
      have hteq : t = u := hu (b, reg) hpmem q hq (ind, t) het (ind, u) heu rfl
      rw [hteq]

theorem mem_regLookup (regs : List (String × TensorRegistry))
    (hnodup : (regs.map Prod.fst).Nodup) (p : String × TensorRegistry) (hp : p ∈ regs)
    (ind : Nat) (t : Tensor) (h : alookup p.2 ind = some t) :
    regLookup regs p.1 ind = some t := by
  unfold regLookup
  rw [alookup_of_mem_nodup regs hnodup p hp]
  exact h

theorem regLookup_isSome_union (regs : List (String × TensorRegistry)) (b : String)
    (ind : Nat) (t : Tensor) (h : regLookup regs b ind = some t) :
    (getITensorAll regs ind).isSome = true := by
  unfold regLookup at h
  rcases hb : alookup regs b with _ | reg
  · rw [hb] at h; cases h
  · rw [hb] at h
    have h' : alookup reg ind = some t := h
    exact mem_getITensorAll_isSome regs (b, reg) (alookup_mem _ _ _ hb) ind
      (by show (alookup reg ind).isSome = true; rw [h']; rfl)

theorem migrantInv_refl (regs : List (String × TensorRegistry)) : MigrantInv regs regs :=
  ⟨rfl, fun _ _ _ h => h, fun _ _ _ h => Or.inl h⟩

/-- Under the uniqueness invariant T1, migrant registration never changes what
the union lookup finds: every tensor the wiring adds is a copy of the tensor
the initial union lookup finds for that index. -/
theorem getITensorAll_stable (regs0 regs : List (String × TensorRegistry))
    (hnodup : (regs0.map Prod.fst).Nodup) (hco : Coherent regs0)
    (hinv : MigrantInv regs0 regs) (ind : Nat) :
    getITensorAll regs ind = getITensorAll regs0 ind := by
  obtain ⟨hkeys, hpres, hnew⟩ := hinv
  have hnodup' : (regs.map Prod.fst).Nodup := by rw [hkeys]; exact hnodup
  rcases h0 : getITensorAll regs0 ind with _ | u
  · rcases h1 : getITensorAll regs ind with _ | t
    · rfl
    · exfalso
      obtain ⟨p, hp, hpl⟩ := getITensorAll_mem regs ind t h1
      have hlk : regLookup regs p.1 ind = some t := mem_regLookup regs hnodup' p hp ind t hpl
      rcases hnew p.1 ind t hlk with hc | ⟨_, hg, _⟩
      · have hs := regLookup_isSome_union regs0 p.1 ind t hc
        rw [h0] at hs
        cases hs
      · rw [h0] at hg
        cases hg
  · obtain ⟨p0, hp0, hp0l⟩ := getITensorAll_mem regs0 ind u h0
    have hl0 : regLookup regs0 p0.1 ind = some u := mem_regLookup regs0 hnodup p0 hp0 ind u hp0l
    have hl1 : regLookup regs p0.1 ind = some u := hpres _ _ _ hl0
    have hsome1 : (getITensorAll regs ind).isSome = true :=
      regLookup_isSome_union regs p0.1 ind u hl1
    rcases h1 : getITensorAll regs ind with _ | t
    · rw [h1] at hsome1; cases hsome1
    · obtain ⟨p, hp, hpl⟩ := getITensorAll_mem regs ind t h1
      have hlk : regLookup regs p.1 ind = some t := mem_regLookup regs hnodup' p hp ind t hpl
      rcases hnew p.1 ind t hlk with hc | ⟨_, hg, _⟩
      · have := hco p.1 ind t hc
        rw [h0] at this
        cases this
        rfl
      · rw [h0] at hg
        cases hg
        rfl

/-- Registering a missing portable tensor as a migrant preserves the wiring
invariant. -/
theorem migrantInv_set (regs0 regs : List (String × TensorRegistry)) (b : String)
    (reg : TensorRegistry) (ind : Nat) (t : Tensor)
    (hinv : MigrantInv regs0 regs) (hb : alookup regs b = some reg)
    (hmiss : regLookup regs b ind = none)
    (ht : getITensorAll regs0 ind = some t) (hport : t.portable = true) :
    MigrantInv regs0 (setMigrantTensor regs b ind t) := by
  obtain ⟨hkeys, hpres, hnew⟩ := hinv
  refine ⟨?_, ?_, ?_⟩
  · rw [setMigrant_fst]
    exact hkeys
  · intro b' ind' t' h
    rw [regLookup_setMigrant regs b reg ind t hb b' ind']
    by_cases hbb : b' = b
    · rw [if_pos hbb]
      have h1 : regLookup regs b' ind' = some t' := hpres _ _ _ h
      rw [hbb] at h1
      have h1' : (alookup reg ind') = some t' := by
        unfold regLookup at h1
        rw [hb] at h1
        exact h1
      rw [h1']
      rfl
    · rw [if_neg hbb]
      exact hpres _ _ _ h
  · intro b' ind' t' h
    rw [regLookup_setMigrant regs b reg ind t hb b' ind'] at h
    by_cases hbb : b' = b
    · rw [if_pos hbb] at h
      rcases hr : alookup reg ind' with _ | u
      · rw [hr] at h
        simp only [Option.isSome_none, Bool.false_eq_true, if_false] at h
        by_cases hii : ind' = ind
        · rw [if_pos hii] at h
          cases h
          refine Or.inr ⟨?_, ?_, hport⟩
          · by_contra hcon
            rcases hv : regLookup regs0 b' ind' with _ | v
            · exact hcon hv
            · have := hpres _ _ _ hv
              rw [hbb, hii] at this
              rw [this] at hmiss
              cases hmiss
          · rw [hii]
            exact ht
        · rw [if_neg hii] at h
          cases h
      · rw [hr] at h
        simp only [Option.isSome_some, if_true] at h
        have hlk : regLookup regs b' ind' = some t' := by
          unfold regLookup
          rw [hbb, hb]
          show alookup reg ind' = some t'
          rw [hr]
          exact h
        exact hnew _ _ _ hlk
    · rw [if_neg hbb] at h
      exact hnew _ _ _ h

theorem setMigrant_mono (regs : List (String × TensorRegistry)) (b : String)
    (reg : TensorRegistry) (ind : Nat) (t : Tensor) (hb : alookup regs b = some reg)
    (b' : String) (ind' : Nat) (t' : Tensor) (h : regLookup regs b' ind' = some t') :
    regLookup (setMigrantTensor regs b ind t) b' ind' = some t' := by
  rw [regLookup_setMigrant regs b reg ind t hb b' ind']
  by_cases hbb : b' = b
  · rw [if_pos hbb]
    have h' : alookup reg ind' = some t' := by
      unfold regLookup at h
      rw [hbb, hb] at h
      exact h
    rw [h']
    rfl
  · rw [if_neg hbb]
    exact h

/-- The inner migrant loop: under invariant T1, the loop succeeds whenever
every listed operand resolves in the initial union, keeps all existing
entries, preserves the wiring invariant, and afterwards each listed operand
either resolves in the op's backend registry or its (initially located)
tensor is non-portable. -/
theorem migrantFold_spec (regs0 : List (String × TensorRegistry))
    (hnodup0 : (regs0.map Prod.fst).Nodup) (hco : Coherent regs0) (b : String) :
    ∀ (il : List Nat) (regs : List (String × TensorRegistry)),
      MigrantInv regs0 regs → (alookup regs b).isSome = true →
      (∀ ind ∈ il, (getITensorAll regs0 ind).isSome = true) →
      ∃ regs2, migrantFold b regs il = .ok regs2 ∧ MigrantInv regs0 regs2 ∧
        (alookup regs2 b).isSome = true ∧
        (∀ b' ind t, regLookup regs b' ind = some t → regLookup regs2 b' ind = some t) ∧
        (∀ ind ∈ il, (regLookup regs2 b ind).isSome = true ∨
          ∃ t, getITensorAll regs0 ind = some t ∧ t.portable = false) := by
  intro il
  induction il with
  | nil =>
    intro regs hinv hbsome _
    exact ⟨regs, rfl, hinv, hbsome, fun _ _ _ h => h, by intro ind h; cases h⟩
  | cons ind rest ih =>
    intro regs hinv hbsome hgot
    rcases hl : alookup ((alookup regs b).getD []) ind with _ | t0
    · have hstable := getITensorAll_stable regs0 regs hnodup0 hco hinv ind
      have hsome0 := hgot ind (List.mem_cons_self _ _)
      rcases hu : getITensorAll regs0 ind with _ | t
      · rw [hu] at hsome0; cases hsome0
      · have hg : getITensorAll regs ind = some t := by rw [hstable, hu]
        rcases hport : t.portable with _ | _
        · obtain ⟨regs2, heq, hinv2, hb2, hmono2, hpost2⟩ := ih regs hinv hbsome
            (fun i hi => hgot i (List.mem_cons_of_mem _ hi))
          refine ⟨regs2, ?_, hinv2, hb2, hmono2, ?_⟩
          · rw [migrantFold, hl, hg]
            show migrantFold b
              (if t.portable = true then setMigrantTensor regs b ind t else regs) rest
              = .ok regs2
            rw [hport, if_neg (by simp)]
            exact heq
          · intro i hi
            rcases List.mem_cons.mp hi with h' | h'
            · subst h'
              exact Or.inr ⟨t, hu, hport⟩
            · exact hpost2 i h'
        · rcases hbv : alookup regs b with _ | reg
          · rw [hbv] at hbsome; cases hbsome
          · have hmiss : regLookup regs b ind = none := hl
            have hl' : alookup reg ind = none := by
              have hx := hl
              rw [hbv] at hx
              exact hx
            have hinv' := migrantInv_set regs0 regs b reg ind t hinv hbv hmiss hu hport
            have hbsome' : (alookup (setMigrantTensor regs b ind t) b).isSome = true := by
              rw [alookup_isSome_iff_mem_fst, setMigrant_fst,
                ← alookup_isSome_iff_mem_fst]
              exact hbsome
            obtain ⟨regs2, heq, hinv2, hb2, hmono2, hpost2⟩ := ih
              (setMigrantTensor regs b ind t) hinv' hbsome'
              (fun i hi => hgot i (List.mem_cons_of_mem _ hi))
            refine ⟨regs2, ?_, hinv2, hb2, ?_, ?_⟩
            · rw [migrantFold, hl, hg]
              show migrantFold b
                (if t.portable = true then setMigrantTensor regs b ind t else regs) rest
                = .ok regs2
              rw [hport, if_pos rfl]
              exact heq
            · intro b' i t' h
              exact hmono2 b' i t' (setMigrant_mono regs b reg ind t hbv b' i t' h)
            · intro i hi
              rcases List.mem_cons.mp hi with h' | h'
              · refine Or.inl ?_
                have hnewm : regLookup (setMigrantTensor regs b ind t) b ind = some t := by
                  rw [regLookup_setMigrant regs b reg ind t hbv b ind, if_pos rfl]
                  rw [hl']
                  simp
                have hfin := hmono2 b ind t hnewm
                rw [h', hfin]
                rfl
              · exact hpost2 i h'
    · obtain ⟨regs2, heq, hinv2, hb2, hmono2, hpost2⟩ := ih regs hinv hbsome
        (fun i hi => hgot i (List.mem_cons_of_mem _ hi))
      refine ⟨regs2, ?_, hinv2, hb2, hmono2, ?_⟩
      · rw [migrantFold, hl]
        exact heq
      · intro i hi
        rcases List.mem_cons.mp hi with h' | h'
        · subst h'
          have hcur : regLookup regs b i = some t0 := hl
          have := hmono2 b i t0 hcur
          rw [this]
          exact Or.inl rfl
        · exact hpost2 i h'

/-- The outer migrant loop over the operations. -/
theorem prepareFold_spec (regs0 : List (String × TensorRegistry))
    (hnodup0 : (regs0.map Prod.fst).Nodup) (hco : Coherent regs0) (lg : LoweredGraph) :
    ∀ (ops : List (Nat × Operation)) (regs : List (String × TensorRegistry)),
      MigrantInv regs0 regs →
      (∀ q ∈ ops, (alookup regs0 (lg.operationBackend q.1)).isSome = true) →
      (∀ q ∈ ops, ∀ ind ∈ q.2.ioList, (getITensorAll regs0 ind).isSome = true) →
      ∃ regs2, prepareFold lg regs ops = .ok regs2 ∧ MigrantInv regs0 regs2 ∧
        (∀ b' ind t, regLookup regs b' ind = some t → regLookup regs2 b' ind = some t) ∧
        (∀ q ∈ ops, ∀ ind ∈ q.2.ioList,
          (regLookup regs2 (lg.operationBackend q.1) ind).isSome = true ∨
            ∃ t, getITensorAll regs0 ind = some t ∧ t.portable = false) := by
    intro ops
    induction ops with
    | nil =>
      intro regs hinv _ _
      exact ⟨regs, rfl, hinv, fun _ _ _ h => h, by intro q hq; cases hq⟩
    | cons q rest ih =>
      intro regs hinv hB hFound
      have hbsome : (alookup regs (lg.operationBackend q.1)).isSome = true := by
        rw [alookup_isSome_iff_mem_fst, hinv.1, ← alookup_isSome_iff_mem_fst]
        exact hB q (List.mem_cons_self _ _)
      obtain ⟨regs1, heq1, hinv1, _, hmono1, hpost1⟩ :=
        migrantFold_spec regs0 hnodup0 hco (lg.operationBackend q.1) q.2.ioList regs hinv
          hbsome (fun i hi => hFound q (List.mem_cons_self _ _) i hi)
      obtain ⟨regs2, heq2, hinv2, hmono2, hpost2⟩ := ih regs1 hinv1
        (fun r hr => hB r (List.mem_cons_of_mem _ hr))
        (fun r hr i hi => hFound r (List.mem_cons_of_mem _ hr) i hi)
      refine ⟨regs2, ?_, hinv2, ?_, ?_⟩
      · rw [prepareFold, if_pos hbsome,
          show migrantStepOp (lg.operationBackend q.1) q.2 regs = Except.ok regs1 from heq1]
        exact heq2
      · intro b' i t h
        exact hmono2 b' i t (hmono1 b' i t h)
      · intro r hr i hi
        rcases List.mem_cons.mp hr with h' | h'
        · subst h'
          rcases hpost1 i hi with h1 | h1
          · rcases hv : regLookup regs1 (lg.operationBackend r.1) i with _ | v
            · rw [hv] at h1; cases h1
            · rw [hmono2 _ _ _ hv]
              exact Or.inl rfl
          · exact Or.inr h1
        · exact hpost2 r h' i hi

/-- Claim C2 (amended): assuming invariant T1 on the post-`genTensors`
registries (unique keys, unambiguous per-index tensors), and that every
operation's backend has a registry and every referenced operand resolves in
the union of the registries, `prepareMigrantTensors` succeeds; existing
entries are left unchanged, every new entry is a migrant registration of the
located (union) tensor at a previously unresolved slot and happens exactly
when that tensor is portable; afterwards every (op, input-or-output operand)
pair either resolves in the op's backend registry or its located tensor is
non-portable (and is left alone). -/
theorem C2_migrant_wiring (lg : LoweredGraph) (regs : List (String × TensorRegistry))
    (hnodup : (regs.map Prod.fst).Nodup) (hu : UniqueTensors regs)
    (hB : ∀ q ∈ lg.graph.operations,
      (alookup regs (lg.operationBackend q.1)).isSome = true)
    (hFound : ∀ q ∈ lg.graph.operations, ∀ ind ∈ q.2.ioList,
      (getITensorAll regs ind).isSome = true) :
    ∃ regs2, prepareMigrantTensors lg regs = .ok regs2 ∧ MigrantInv regs regs2 ∧
      ∀ q ∈ lg.graph.operations, ∀ ind ∈ q.2.ioList,
        (regLookup regs2 (lg.operationBackend q.1) ind).isSome = true ∨
          ∃ t, getITensorAll regs ind = some t ∧ t.portable = false := by
  obtain ⟨regs2, heq, hinv, _, hpost⟩ := prepareFold_spec regs hnodup
    (uniqueTensors_coherent regs hu) lg lg.graph.operations regs (migrantInv_refl regs)
    hB hFound
  exact ⟨regs2, heq, hinv, hpost⟩

/-- Counterexample to C2 as stated: the wiring succeeds, the operand of op 20
resolves in the union of the registries, but the located tensor is
non-portable, so after the phase the op's backend registry (`cpu`) still does
not resolve it — totality fails. -/
theorem C2_counterexample :
    resultOk (prepareMigrantTensors lgEx2 regsEx2) = some regsEx2 ∧
    (20, (⟨[some 0], []⟩ : Operation)) ∈ lgEx2.graph.operations ∧
    lgEx2.operationBackend 20 = "cpu" ∧
    (0 ∈ (Operation.ioList ⟨[some 0], []⟩)) ∧
    (getITensorAll regsEx2 0).isSome = true ∧
    regLookup regsEx2 "cpu" 0 = none := by
  decide

/-- Witness for C2 with a portable tensor. -/
theorem C2_migrant_wiring_witness :
    ((regsEx2p.map Prod.fst).Nodup ∧ UniqueTensors regsEx2p ∧
      (∀ q ∈ lgEx2.graph.operations,
        (alookup regsEx2p (lgEx2.operationBackend q.1)).isSome = true) ∧
      (∀ q ∈ lgEx2.graph.operations, ∀ ind ∈ q.2.ioList,
        (getITensorAll regsEx2p ind).isSome = true)) ∧
    (∃ regs2, prepareMigrantTensors lgEx2 regsEx2p = .ok regs2 ∧
      MigrantInv regsEx2p regs2 ∧
      ∀ q ∈ lgEx2.graph.operations, ∀ ind ∈ q.2.ioList,
        (regLookup regs2 (lgEx2.operationBackend q.1) ind).isSome = true ∨
          ∃ t, getITensorAll regsEx2p ind = some t ∧ t.portable = false) :=
  ⟨⟨by decide, by decide, by decide, by decide⟩,
   C2_migrant_wiring lgEx2 regsEx2p (by decide) (by decide) (by decide) (by decide)⟩

/-! Claim C6: unsupported executor values. -/

/-- Claim C6 (amended): for every options value whose executor field is not
one of Linear, Dataflow, or Parallel, `ExecutorFactory::create` fails — but by
raising `std::out_of_range` from the `_map.at` lookup, not `ConfigError` — and
returns no executor. -/
theorem C6_unknown_executor (abi : BackendABI) (backends : List String) (lg : LoweredGraph)
    (opts : CompilerOptions) (h1 : opts.executor ≠ "Linear") (h2 : opts.executor ≠ "Dataflow")
    (h3 : opts.executor ≠ "Parallel") :
    factoryCreate abi backends lg opts = .error (.mapAtOutOfRange opts.executor) := by
  unfold factoryCreate
  rw [if_neg h1, if_neg h2, if_neg h3]

/-- Counterexample to C6 as stated: with `executor = "Foo"` the factory does
fail and returns no executor, but the failure is `std::out_of_range`, not
`ConfigError`. -/
theorem C6_counterexample :
    resultIsOutOfRange (factoryCreate abiEx ["builtin"] lgEx optsFoo) = true ∧
    resultIsConfigError (factoryCreate abiEx ["builtin"] lgEx optsFoo) = false ∧
    resultOk (factoryCreate abiEx ["builtin"] lgEx optsFoo) = none := by
  decide

/-- Witness for C6 at a concrete unsupported option value. -/
theorem C6_unknown_executor_witness :
    (optsFoo.executor ≠ "Linear" ∧ optsFoo.executor ≠ "Dataflow" ∧
      optsFoo.executor ≠ "Parallel") ∧
    factoryCreate abiEx ["builtin"] lgEx optsFoo = .error (.mapAtOutOfRange optsFoo.executor) :=
  ⟨by decide, C6_unknown_executor abiEx ["builtin"] lgEx optsFoo (by decide) (by decide) (by decide)⟩

/-! Claim C7: SyncFunction wrapping under profiling mode. -/

/-- Claim C7: with `he_profiling_mode` set, both kernel-generation loops wrap
every operation's function sequence in a `SyncFunction` over the op's backend
config (with at most a `DeallocFunction` appended after it in the Linear
path), and `SyncFunction::run` first runs the inner sequence to completion and
then emits the backend sync — so the barrier completes before control returns
from the wrapped op. -/
theorem C7_sync_wrapping (abi : BackendABI) (orderedContexts : List (String × ContextData))
    (lg : LoweredGraph) (dmap : Nat → List (Nat × Tensor)) :
    (∀ opInd fn, (opInd, fn) ∈ genKernelsLinear abi orderedContexts lg true dmap →
      ∃ bc inner, bc ∈ orderedContexts ∧ (opInd, inner) ∈ abi.genKernels bc.1 bc.2 ∧
        (fn = RtFn.sync inner (lg.operationBackend opInd) ∨
          fn = RtFn.fnSeq (RtFn.sync inner (lg.operationBackend opInd))
            (RtFn.deallocFn (dmap opInd))) ∧
        (RtFn.sync inner (lg.operationBackend opInd)).run
          = inner.run ++ [RtEvent.syncBackend (lg.operationBackend opInd)]) ∧
    (∀ opInd fn, (opInd, fn) ∈ genKernelsDataflow abi orderedContexts lg true →
      ∃ bc inner, bc ∈ orderedContexts ∧ (opInd, inner) ∈ abi.genKernels bc.1 bc.2 ∧
        fn = RtFn.sync inner (lg.operationBackend opInd) ∧
        (RtFn.sync inner (lg.operationBackend opInd)).run
          = inner.run ++ [RtEvent.syncBackend (lg.operationBackend opInd)]) := by
  constructor
  · intro opInd fn hmem
    unfold genKernelsLinear at hmem
    rw [List.mem_flatten] at hmem
    obtain ⟨s, hs, hfn⟩ := hmem
    rw [List.mem_map] at hs
    obtain ⟨bc, hbc, rfl⟩ := hs
    rw [List.mem_map] at hfn
    obtain ⟨oc, hoc, heq⟩ := hfn
    rw [Prod.mk.injEq] at heq
    obtain ⟨h1, h2⟩ := heq
    refine ⟨bc, oc.2, hbc, ?_, ?_, by simp [RtFn.run]⟩
    · rw [← h1]
      exact hoc
    · rw [← h2, ← h1]
      by_cases hd : dmap oc.1 = []
      · left; simp [hd]
      · right; simp [hd]
  · intro opInd fn hmem
    unfold genKernelsDataflow at hmem
    rw [List.mem_flatten] at hmem
    obtain ⟨s, hs, hfn⟩ := hmem
    rw [List.mem_map] at hs
    obtain ⟨bc, hbc, rfl⟩ := hs
    rw [List.mem_map] at hfn
    obtain ⟨oc, hoc, heq⟩ := hfn
    rw [Prod.mk.injEq] at heq
    obtain ⟨h1, h2⟩ := heq
    refine ⟨bc, oc.2, hbc, ?_, ?_, by simp [RtFn.run]⟩
    · rw [← h1]
      exact hoc
    · rw [← h2, ← h1]
      simp

/-- Witness for C7 at a concrete kernel list. -/
theorem C7_sync_wrapping_witness :
    ((0, RtFn.sync (RtFn.kernel 1) (lgEx.operationBackend 0))
        ∈ genKernelsLinear abiEx1 [("builtin", emptyContextData)] lgEx true (fun _ => [])) ∧
    (∃ bc inner, bc ∈ [("builtin", emptyContextData)] ∧
      (0, inner) ∈ abiEx1.genKernels bc.1 bc.2 ∧
      (RtFn.sync (RtFn.kernel 1) (lgEx.operationBackend 0)
          = RtFn.sync inner (lgEx.operationBackend 0) ∨
        RtFn.sync (RtFn.kernel 1) (lgEx.operationBackend 0)
          = RtFn.fnSeq (RtFn.sync inner (lgEx.operationBackend 0))
            (RtFn.deallocFn ((fun _ => ([] : List (Nat × Tensor))) 0))) ∧
      (RtFn.sync inner (lgEx.operationBackend 0)).run
        = inner.run ++ [RtEvent.syncBackend (lgEx.operationBackend 0)]) :=
  ⟨by decide,
   (C7_sync_wrapping abiEx1 [("builtin", emptyContextData)] lgEx (fun _ => [])).1
     0 (RtFn.sync (RtFn.kernel 1) (lgEx.operationBackend 0)) (by decide)⟩

/-! Claim C8: ProfileObserver attachment. -/

theorem hasProfileObserver_append (a b : List Observer) :
    hasProfileObserver (a ++ b) = (hasProfileObserver a || hasProfileObserver b) := by
  simp [hasProfileObserver]

/-- Claim C8 (amended): on a successful dataflow-path construction, a
`ProfileObserver` (backed by an `ExecTime` over the backends of the backend
contexts) is attached exactly when `he_profiling_mode` is set AND the
non-parallel DataflowExecutor was built; the Parallel variant never receives
one. -/
theorem C8_profile_observer (abi : BackendABI) (backends : List String) (lg : LoweredGraph)
    (opts : CompilerOptions) (parallel : Bool) (res : ExecutorResult)
    (hok : createDataflowExecutor abi backends lg opts parallel = .ok res) :
    (hasProfileObserver res.observers = true ↔
      (opts.heProfilingMode = true ∧ parallel = false)) ∧
    (opts.heProfilingMode = true → parallel = false →
      Observer.profileObserver (res.contexts.map Prod.fst) ∈ res.observers) := by
  unfold createDataflowExecutor at hok
  obtain ⟨r1, h1, hok1⟩ := exceptCase_ok _ _ _ hok
  obtain ⟨r3, h3, hok3⟩ := exceptCase_ok _ _ _ hok1
  cases hok3
  constructor
  · rw [hasProfileObserver_append]
    by_cases hpar : parallel = false
    · by_cases hprof : opts.heProfilingMode = true
      · rw [if_pos ⟨hpar, hprof⟩]
        by_cases ht : opts.traceFilepath ≠ ""
        · rw [if_pos ht]; simp [hasProfileObserver, hpar, hprof]
        · rw [if_neg ht]; simp [hasProfileObserver, hpar, hprof]
      · rw [if_neg (fun hc => hprof hc.2)]
        by_cases ht : opts.traceFilepath ≠ ""
        · rw [if_pos ht]; simp [hasProfileObserver, hprof]
        · rw [if_neg ht]; simp [hasProfileObserver, hprof]
    · rw [if_neg (fun hc => hpar hc.1)]
      by_cases ht : opts.traceFilepath ≠ ""
      · rw [if_pos ht]; simp [hasProfileObserver, hpar]
      · rw [if_neg ht]; simp [hasProfileObserver, hpar]
  · intro hprof hpar
    rw [if_pos (show parallel = false ∧ opts.heProfilingMode = true from ⟨hpar, hprof⟩)]
    exact List.mem_append_left _ (List.mem_singleton.mpr rfl)

/-- Counterexample to C8 as stated: with profiling set and the Parallel
variant (a dataflow executor per the spec), the construction succeeds but no
`ProfileObserver` is attached. -/
theorem C8_counterexample :
    optsParallelProf.heProfilingMode = true ∧
    resultKind (createDataflowExecutor abiEx ["builtin"] lgEx optsParallelProf true)
      = some .parallelExec ∧
    hasProfileObserver
        (okObservers (createDataflowExecutor abiEx ["builtin"] lgEx optsParallelProf true))
      = false ∧
    (resultOk (createDataflowExecutor abiEx ["builtin"] lgEx optsParallelProf true)).isSome
      = true := by
  decide

/-! Entry-level characterization of the partitioner folds. -/

theorem operandSepStep_alookup (lg : LoweredGraph) (m : List (String × ContextData))
    (p : Nat × Operand) (b : String) :
    alookup (operandSepStep lg m p) b =
      if lg.operandDefFactors p.1 = [] then alookup m b
      else if b = (getOnlyElement (lg.operandDefFactors p.1)).backend then
        some ((operandCopyFn p.1 p.2 (getOnlyElement (lg.operandDefFactors p.1)).layout)
          ((alookup m (getOnlyElement (lg.operandDefFactors p.1)).backend).getD emptyContextData))
      else alookup m b := by
  unfold operandSepStep
  by_cases h : lg.operandDefFactors p.1 = []
  · rw [if_pos h, if_pos h]
  · rw [if_neg h, if_neg h, alookup_aupdate]

theorem operationSepStep_alookup (lg : LoweredGraph) (W : List (Nat × Operand))
    (m : List (String × ContextData)) (q : Nat × Operation) (b : String) :
    alookup (operationSepStep lg W m q) b =
      if b = lg.operationBackend q.1 then
        some (separateOneOperation lg W q.1 q.2
          ((alookup m (lg.operationBackend q.1)).getD emptyContextData))
      else alookup m b := by
  unfold operationSepStep
  rw [alookup_aupdate]

theorem foldl_entry_pres {γ α β : Type} [DecidableEq α]
    (step : List (α × β) → γ → List (α × β)) (Q : β → Prop) (b : α) :
    ∀ (l : List γ),
      (∀ m x, x ∈ l → (∃ v, alookup m b = some v ∧ Q v) →
        ∃ v, alookup (step m x) b = some v ∧ Q v) →
      ∀ m, (∃ v, alookup m b = some v ∧ Q v) →
        ∃ v, alookup (l.foldl step m) b = some v ∧ Q v := by
  intro l
  induction l with
  | nil => intro _ m h; exact h
  | cons x t ih =>
    intro hstep m h
    exact ih (fun m y hy => hstep m y (List.mem_cons_of_mem _ hy)) _
      (hstep m x (List.mem_cons_self _ _) h)

theorem foldl_entry_establish {γ α β : Type} [DecidableEq α]
    (step : List (α × β) → γ → List (α × β)) (Q : β → Prop) (b : α) (x0 : γ)
    (l : List γ) (hmem : x0 ∈ l)
    (hstep : ∀ m x, x ∈ l → (∃ v, alookup m b = some v ∧ Q v) →
      ∃ v, alookup (step m x) b = some v ∧ Q v)
    (hx0 : ∀ m, ∃ v, alookup (step m x0) b = some v ∧ Q v) :
    ∀ m, ∃ v, alookup (l.foldl step m) b = some v ∧ Q v := by
  intro m
  obtain ⟨s, t, rfl⟩ := List.append_of_mem hmem
  rw [List.foldl_append]
  simp only [List.foldl_cons]
  refine foldl_entry_pres step Q b t ?_ _ (hx0 _)
  intro m' y hy h'
  exact hstep m' y (by simp [hy]) h'

theorem addExternalOperand_fields (lg : LoweredGraph) (W : List (Nat × Operand))
    (data : ContextData) (ind : Nat) :
    (∃ ext, (addExternalOperand lg W data ind).pgraph.operands
        = data.pgraph.operands ++ ext) ∧
      (addExternalOperand lg W data ind).pgraph.operations = data.pgraph.operations ∧
      (addExternalOperand lg W data ind).pgraph.inputs = data.pgraph.inputs ∧
      (addExternalOperand lg W data ind).pgraph.outputs = data.pgraph.outputs ∧
      (addExternalOperand lg W data ind).pgraph.layout = data.pgraph.layout ∧
      (addExternalOperand lg W data ind).opOrder = data.opOrder ∧
      (addExternalOperand lg W data ind).isLinearExecutor = data.isLinearExecutor := by
  unfold addExternalOperand
  by_cases h : (alookup data.pgraph.operands ind).isSome
  · rw [if_pos h]
    exact ⟨⟨[], by simp⟩, rfl, rfl, rfl, rfl, rfl, rfl⟩
  · rw [if_neg h]
    exact ⟨⟨_, rfl⟩, rfl, rfl, rfl, rfl, rfl, rfl⟩

theorem ioFold_fields (lg : LoweredGraph) (W : List (Nat × Operand)) :
    ∀ (il : List Nat) (data : ContextData),
      (∃ ext, (il.foldl (addExternalOperand lg W) data).pgraph.operands
          = data.pgraph.operands ++ ext) ∧
        (il.foldl (addExternalOperand lg W) data).pgraph.operations
          = data.pgraph.operations ∧
        (il.foldl (addExternalOperand lg W) data).pgraph.inputs = data.pgraph.inputs ∧
        (il.foldl (addExternalOperand lg W) data).pgraph.outputs = data.pgraph.outputs ∧
        (il.foldl (addExternalOperand lg W) data).pgraph.layout = data.pgraph.layout ∧
        (il.foldl (addExternalOperand lg W) data).opOrder = data.opOrder ∧
        (il.foldl (addExternalOperand lg W) data).isLinearExecutor
          = data.isLinearExecutor := by
  intro il
  induction il with
  | nil => intro data; exact ⟨⟨[], by simp⟩, rfl, rfl, rfl, rfl, rfl, rfl⟩
  | cons ind t ih =>
    intro data
    obtain ⟨⟨ext1, he1⟩, ho1, hi1, hu1, hl1, hoo1, hle1⟩ :=
      addExternalOperand_fields lg W data ind
    obtain ⟨⟨ext2, he2⟩, ho2, hi2, hu2, hl2, hoo2, hle2⟩ := ih (addExternalOperand lg W data ind)
    simp only [List.foldl_cons]
    refine ⟨⟨ext1 ++ ext2, ?_⟩, ho2.trans ho1, hi2.trans hi1, hu2.trans hu1,
      hl2.trans hl1, hoo2.trans hoo1, hle2.trans hle1⟩
    rw [he2, he1, List.append_assoc]

theorem separateOneOperation_fields (lg : LoweredGraph) (W : List (Nat × Operand))
    (opInd : Nat) (op : Operation) (data : ContextData) :
    (∃ ext, (separateOneOperation lg W opInd op data).pgraph.operands
        = data.pgraph.operands ++ ext) ∧
      (separateOneOperation lg W opInd op data).pgraph.operations
        = data.pgraph.operations ++ [(opInd, op)] ∧
      (separateOneOperation lg W opInd op data).pgraph.inputs = data.pgraph.inputs ∧
      (separateOneOperation lg W opInd op data).pgraph.outputs = data.pgraph.outputs ∧
      (separateOneOperation lg W opInd op data).pgraph.layout = data.pgraph.layout ∧
      (separateOneOperation lg W opInd op data).opOrder = data.opOrder ∧
      (separateOneOperation lg W opInd op data).isLinearExecutor
        = data.isLinearExecutor := by
  obtain ⟨⟨ext, he⟩, ho, hi, hu, hl, hoo, hle⟩ := ioFold_fields lg W op.ioList data
  refine ⟨⟨ext, he⟩, ?_, hi, hu, hl, hoo, hle⟩
  show (List.foldl (addExternalOperand lg W) data op.ioList).pgraph.operations ++ [(opInd, op)]
    = data.pgraph.operations ++ [(opInd, op)]
  rw [ho]

theorem finalizeStep_fields (whole : Graph) (data0 data : ContextData) (p : Nat × Operand) :
    (finalizeStep whole data0 data p).pgraph.operands = data.pgraph.operands ∧
      (finalizeStep whole data0 data p).pgraph.operations = data.pgraph.operations ∧
      (finalizeStep whole data0 data p).pgraph.layout = data.pgraph.layout ∧
      (finalizeStep whole data0 data p).opOrder = data.opOrder ∧
      (finalizeStep whole data0 data p).isLinearExecutor = data.isLinearExecutor ∧
      (finalizeStep whole data0 data p).operandLayouts = data.operandLayouts ∧
      (finalizeStep whole data0 data p).externalOperands
        = data.externalOperands ++ (if finExtCond whole p then [p.1] else []) ∧
      (finalizeStep whole data0 data p).pgraph.inputs
        = data.pgraph.inputs ++ (if finInCond whole data0 p then [p.1] else []) ∧
      (finalizeStep whole data0 data p).pgraph.outputs
        = data.pgraph.outputs ++ (if finOutCond whole data0 p then [p.1] else []) := by
  unfold finalizeStep finExtCond finInCond finOutCond
  by_cases hin : p.1 ∈ whole.inputs
  all_goals by_cases hout : p.1 ∈ whole.outputs
  all_goals by_cases hdef : data0.pgraph.getDef p.1 = none
  all_goals by_cases hconst : p.2.isConstant = false
  all_goals by_cases huse : data0.pgraph.getUses p.1 = []
  all_goals simp_all

theorem finalizeFold_fields (whole : Graph) (data0 : ContextData) :
    ∀ (items : List (Nat × Operand)) (data : ContextData),
      ((items.foldl (finalizeStep whole data0) data).pgraph.operands
          = data.pgraph.operands) ∧
        (items.foldl (finalizeStep whole data0) data).pgraph.operations
          = data.pgraph.operations ∧
        (items.foldl (finalizeStep whole data0) data).pgraph.layout = data.pgraph.layout ∧
        (items.foldl (finalizeStep whole data0) data).opOrder = data.opOrder ∧
        (items.foldl (finalizeStep whole data0) data).isLinearExecutor
          = data.isLinearExecutor ∧
        (items.foldl (finalizeStep whole data0) data).operandLayouts
          = data.operandLayouts ∧
        (items.foldl (finalizeStep whole data0) data).externalOperands
          = data.externalOperands ++ (items.filter (finExtCond whole)).map Prod.fst ∧
        (items.foldl (finalizeStep whole data0) data).pgraph.inputs
          = data.pgraph.inputs ++ (items.filter (finInCond whole data0)).map Prod.fst ∧
        (items.foldl (finalizeStep whole data0) data).pgraph.outputs
          = data.pgraph.outputs ++ (items.filter (finOutCond whole data0)).map Prod.fst := by
  intro items
  induction items with
  | nil => intro data; simp
  | cons p t ih =>
    intro data
    obtain ⟨ha, hb, hc, hd, he, hf, hg, hh, hi⟩ := finalizeStep_fields whole data0 data p
    obtain ⟨ia, ib, ic, id', ie', if', ig, ih', ii⟩ := ih (finalizeStep whole data0 data p)
    simp only [List.foldl_cons]
    refine ⟨ia.trans ha, ib.trans hb, ic.trans hc, id'.trans hd, ie'.trans he, if'.trans hf,
      ?_, ?_, ?_⟩
    · rw [ig, hg]
      by_cases hcond : finExtCond whole p
      · simp [hcond, List.filter_cons, List.append_assoc]
      · simp [hcond, List.filter_cons]
    · rw [ih', hh]
      by_cases hcond : finInCond whole data0 p
      · simp [hcond, List.filter_cons, List.append_assoc]
      · simp [hcond, List.filter_cons]
    · rw [ii, hi]
      by_cases hcond : finOutCond whole data0 p
      · simp [hcond, List.filter_cons, List.append_assoc]
      · simp [hcond, List.filter_cons]

theorem finalizeContextData_spec (whole : Graph) (order : List Nat) (lin : Bool)
    (d0 : ContextData) :
    (finalizeContextData whole order lin d0).pgraph.operands = d0.pgraph.operands ∧
      (finalizeContextData whole order lin d0).pgraph.operations = d0.pgraph.operations ∧
      (finalizeContextData whole order lin d0).pgraph.layout = d0.pgraph.layout ∧
      (finalizeContextData whole order lin d0).operandLayouts = d0.operandLayouts ∧
      (finalizeContextData whole order lin d0).isLinearExecutor = lin ∧
      (finalizeContextData whole order lin d0).opOrder
        = order.filter (fun ind => (alookup d0.pgraph.operations ind).isSome) ∧
      (finalizeContextData whole order lin d0).externalOperands
        = d0.externalOperands ++ (d0.pgraph.operands.filter (finExtCond whole)).map Prod.fst ∧
      (finalizeContextData whole order lin d0).pgraph.inputs
        = d0.pgraph.inputs ++ (d0.pgraph.operands.filter (finInCond whole d0)).map Prod.fst ∧
      (finalizeContextData whole order lin d0).pgraph.outputs
        = d0.pgraph.outputs ++ (d0.pgraph.operands.filter (finOutCond whole d0)).map Prod.fst := by
  obtain ⟨ha, hb, hc, hd, he, hf, hg, hh, hi⟩ :=
    finalizeFold_fields whole d0 d0.pgraph.operands d0
  unfold finalizeContextData
  refine ⟨ha, hb, hc, hf, rfl, ?_, hg, hh, hi⟩
  show List.filter
      (fun ind =>
        (alookup (List.foldl (finalizeStep whole d0) d0 d0.pgraph.operands).pgraph.operations
          ind).isSome) order
    = List.filter (fun ind => (alookup d0.pgraph.operations ind).isSome) order
  rw [hb]

theorem filter_false_eq_nil {γ : Type} (f : γ → Bool) (hf : ∀ x, f x = false) :
    ∀ l : List γ, l.filter f = [] := by
  intro l
  induction l with
  | nil => rfl
  | cons x t ih => simp [List.filter_cons, hf x, ih]

/-! Claim C9: the partitioner's frame effect on the whole lowered graph. -/

/-- Claim C9: `createBackendContexts` copies every used operand (non-empty
`def_factors`) into its chosen backend's partial graph (data payload intact)
and releases the data payload of the whole graph's copy; every other field of
the whole graph's operands, and the operations, IO lists, layout and lower
info, are unchanged, and unused operands are untouched. -/
theorem C9_partition_releases_data (backends : List String) (lg : LoweredGraph) (lin : Bool) :
    ((createBackendContexts backends lg lin).lgraph.graph.operands
        = lg.graph.operands.map (fun p =>
            if lg.operandDefFactors p.1 = [] then p else (p.1, { p.2 with data := none }))) ∧
      (createBackendContexts backends lg lin).lgraph.graph.operations
        = lg.graph.operations ∧
      (createBackendContexts backends lg lin).lgraph.graph.inputs = lg.graph.inputs ∧
      (createBackendContexts backends lg lin).lgraph.graph.outputs = lg.graph.outputs ∧
      (createBackendContexts backends lg lin).lgraph.graph.layout = lg.graph.layout ∧
      (createBackendContexts backends lg lin).lgraph.operandDefFactors
        = lg.operandDefFactors ∧
      (createBackendContexts backends lg lin).lgraph.operationBackend
        = lg.operationBackend ∧
      ∀ p ∈ lg.graph.operands, lg.operandDefFactors p.1 ≠ [] →
        ∃ data,
          alookup (createBackendContexts backends lg lin).contexts
              (getOnlyElement (lg.operandDefFactors p.1)).backend = some data ∧
            (p.1, p.2) ∈ data.pgraph.operands := by
  have hrel : (createBackendContexts backends lg lin).lgraph.graph.operands
      = lg.graph.operands.map (releasedOperand lg) := by
    show (cbcOperandPhase backends lg).2 = _
    unfold cbcOperandPhase
    rw [separateOperands_eq]
  refine ⟨hrel, rfl, rfl, rfl, rfl, rfl, rfl, ?_⟩
  intro p hp hused
  have h1 : ∃ v,
      alookup (cbcOperandPhase backends lg).1
          (getOnlyElement (lg.operandDefFactors p.1)).backend = some v ∧
        (p.1, p.2) ∈ v.pgraph.operands := by
    have hres := foldl_entry_establish (operandSepStep lg)
      (fun v => (p.1, p.2) ∈ v.pgraph.operands)
      (getOnlyElement (lg.operandDefFactors p.1)).backend p lg.graph.operands hp
      ?_ ?_ (initialContextMap backends lg)
    · unfold cbcOperandPhase
      rw [separateOperands_eq]
      exact hres
    · intro m x _ hv
      obtain ⟨v, hv, hq⟩ := hv
      rw [operandSepStep_alookup]
      by_cases hc : lg.operandDefFactors x.1 = []
      · rw [if_pos hc]; exact ⟨v, hv, hq⟩
      · rw [if_neg hc]
        by_cases hb : (getOnlyElement (lg.operandDefFactors p.1)).backend
            = (getOnlyElement (lg.operandDefFactors x.1)).backend
        · rw [if_pos hb]
          refine ⟨_, rfl, ?_⟩
          rw [← hb, hv]
          simp [operandCopyFn]
          exact Or.inl hq
        · rw [if_neg hb]; exact ⟨v, hv, hq⟩
    · intro m
      rw [operandSepStep_alookup, if_neg hused, if_pos rfl]
      refine ⟨_, rfl, ?_⟩
      simp [operandCopyFn]
  have h2 : ∃ v,
      alookup (separateOperations (cbcMutatedLg backends lg) (cbcOperandPhase backends lg).2
          (cbcOperandPhase backends lg).1)
          (getOnlyElement (lg.operandDefFactors p.1)).backend = some v ∧
        (p.1, p.2) ∈ v.pgraph.operands := by
    refine foldl_entry_pres
      (operationSepStep (cbcMutatedLg backends lg) (cbcOperandPhase backends lg).2)
      (fun v => (p.1, p.2) ∈ v.pgraph.operands)
      (getOnlyElement (lg.operandDefFactors p.1)).backend lg.graph.operations ?_ _ h1
    intro m q _ hv
    obtain ⟨v, hv, hmem⟩ := hv
    rw [operationSepStep_alookup]
    by_cases hb2 : (getOnlyElement (lg.operandDefFactors p.1)).backend
        = (cbcMutatedLg backends lg).operationBackend q.1
    · rw [if_pos hb2]
      refine ⟨_, rfl, ?_⟩
      rw [← hb2, hv]
      obtain ⟨⟨ext, he⟩, _⟩ := separateOneOperation_fields (cbcMutatedLg backends lg)
        (cbcOperandPhase backends lg).2 q.1 q.2 ((some v).getD emptyContextData)
      rw [he]
      exact List.mem_append_left _ hmem
    · rw [if_neg hb2]; exact ⟨v, hv, hmem⟩
  obtain ⟨v, hv, hmem⟩ := h2
  refine ⟨finalizeContextData (cbcMutatedLg backends lg).graph
    ((cbcMutatedLg backends lg).graph.topolSortOperations) lin v, ?_, ?_⟩
  · show alookup ((separateOperations (cbcMutatedLg backends lg) (cbcOperandPhase backends lg).2
        (cbcOperandPhase backends lg).1).map
        (fun q => (q.1, finalizeContextData (cbcMutatedLg backends lg).graph
          ((cbcMutatedLg backends lg).graph.topolSortOperations) lin q.2)))
        (getOnlyElement (lg.operandDefFactors p.1)).backend = _
    rw [alookup_map_value _ (finalizeContextData (cbcMutatedLg backends lg).graph
      ((cbcMutatedLg backends lg).graph.topolSortOperations) lin) _, hv]
    rfl
  · obtain ⟨hops, _⟩ := finalizeContextData_spec (cbcMutatedLg backends lg).graph
      ((cbcMutatedLg backends lg).graph.topolSortOperations) lin v
    rw [hops]
    exact hmem

/-- Witness for C9 at a concrete lowered graph. -/
theorem C9_partition_releases_data_witness :
    ((createBackendContexts ["builtin"] lgEx false).lgraph.graph.operands
        = lgEx.graph.operands.map (fun p =>
            if lgEx.operandDefFactors p.1 = [] then p else (p.1, { p.2 with data := none }))) ∧
    ((0, (⟨0, false, false, none⟩ : Operand)) ∈ lgEx.graph.operands ∧
      lgEx.operandDefFactors 0 ≠ []) ∧
    (∃ data,
      alookup (createBackendContexts ["builtin"] lgEx false).contexts
          (getOnlyElement (lgEx.operandDefFactors 0)).backend = some data ∧
        (0, (⟨0, false, false, none⟩ : Operand)) ∈ data.pgraph.operands) :=
  ⟨(C9_partition_releases_data ["builtin"] lgEx false).1,
   ⟨by decide, by decide⟩,
   (C9_partition_releases_data ["builtin"] lgEx false).2.2.2.2.2.2.2
     (0, (⟨0, false, false, none⟩ : Operand)) (by decide) (by decide)⟩

/-! Claim C10: backends with nothing assigned still get a context. -/

/-- Claim C10: a backend registered in the manager to which no operand and no
operation is assigned still receives a context, with an empty partial graph,
empty `op_order` and empty `external_operands`; and on every successful
construction its `genTensors` and `genKernels` are still invoked (it appears
in both traversals). -/
theorem C10_unassigned_backend (backends : List String) (lg : LoweredGraph) (b : String)
    (hb : b ∈ backends)
    (hops : ∀ q ∈ lg.graph.operations, lg.operationBackend q.1 ≠ b)
    (hoperands : ∀ p ∈ lg.graph.operands, lg.operandDefFactors p.1 ≠ [] →
      (getOnlyElement (lg.operandDefFactors p.1)).backend ≠ b) :
    (∀ lin : Bool, ∃ data,
      alookup (createBackendContexts backends lg lin).contexts b = some data ∧
        data.pgraph.operands = [] ∧ data.pgraph.operations = [] ∧
        data.pgraph.inputs = [] ∧ data.pgraph.outputs = [] ∧
        data.externalOperands = [] ∧ data.opOrder = [] ∧
        data.isLinearExecutor = lin) ∧
    (∀ abi opts res, createLinearExecutor abi backends lg opts = .ok res →
      b ∈ res.genTensorsTargets ∧ b ∈ res.kernelGenOrder) ∧
    (∀ abi opts par res, createDataflowExecutor abi backends lg opts par = .ok res →
      b ∈ res.genTensorsTargets ∧ b ∈ res.kernelGenOrder) := by
  have hinitB : alookup (initialContextMap backends lg) b
      = some { emptyContextData with
        pgraph := { emptyContextData.pgraph with layout := lg.graph.layout } } :=
    alookup_map_of_mem backends _ b hb
  have hkeep : ∃ v, alookup (separateOperations (cbcMutatedLg backends lg)
      (cbcOperandPhase backends lg).2 (cbcOperandPhase backends lg).1) b = some v ∧
        (v.pgraph.operands = [] ∧ v.pgraph.operations = [] ∧ v.pgraph.inputs = [] ∧
          v.pgraph.outputs = [] ∧ v.externalOperands = []) := by
    have h1 : ∃ v, alookup (cbcOperandPhase backends lg).1 b = some v ∧
        (v.pgraph.operands = [] ∧ v.pgraph.operations = [] ∧ v.pgraph.inputs = [] ∧
          v.pgraph.outputs = [] ∧ v.externalOperands = []) := by
      have hres := foldl_entry_pres (operandSepStep lg)
        (fun v => v.pgraph.operands = [] ∧ v.pgraph.operations = [] ∧ v.pgraph.inputs = [] ∧
          v.pgraph.outputs = [] ∧ v.externalOperands = [])
        b lg.graph.operands ?_ (initialContextMap backends lg)
        ⟨_, hinitB, rfl, rfl, rfl, rfl, rfl⟩
      · unfold cbcOperandPhase
        rw [separateOperands_eq]
        exact hres
      · intro m x hx hv
        obtain ⟨v, hv, hq⟩ := hv
        rw [operandSepStep_alookup]
        by_cases hc : lg.operandDefFactors x.1 = []
        · rw [if_pos hc]; exact ⟨v, hv, hq⟩
        · rw [if_neg hc]
          rw [if_neg (fun hh => hoperands x hx hc hh.symm)]
          exact ⟨v, hv, hq⟩
    obtain ⟨v, hv, hq⟩ := h1
    have hres := foldl_entry_pres
      (operationSepStep (cbcMutatedLg backends lg) (cbcOperandPhase backends lg).2)
      (fun w => w.pgraph.operands = [] ∧ w.pgraph.operations = [] ∧ w.pgraph.inputs = [] ∧
        w.pgraph.outputs = [] ∧ w.externalOperands = [])
      b lg.graph.operations ?_ (cbcOperandPhase backends lg).1 ⟨v, hv, hq⟩
    · exact hres
    · intro m q hq' hw
      obtain ⟨w, hw, hq''⟩ := hw
      rw [operationSepStep_alookup]
      rw [if_neg (fun hh => hops q hq' hh.symm)]
      exact ⟨w, hw, hq''⟩
  have hmain : ∀ lin : Bool, ∃ data,
      alookup (createBackendContexts backends lg lin).contexts b = some data ∧
        data.pgraph.operands = [] ∧ data.pgraph.operations = [] ∧
        data.pgraph.inputs = [] ∧ data.pgraph.outputs = [] ∧
        data.externalOperands = [] ∧ data.opOrder = [] ∧
        data.isLinearExecutor = lin := by
    intro lin
    obtain ⟨v, hv, hverands, hvops, hvin, hvout, hvext⟩ := hkeep
    refine ⟨finalizeContextData (cbcMutatedLg backends lg).graph
      ((cbcMutatedLg backends lg).graph.topolSortOperations) lin v, ?_, ?_⟩
    · show alookup ((separateOperations (cbcMutatedLg backends lg)
          (cbcOperandPhase backends lg).2 (cbcOperandPhase backends lg).1).map
          (fun q => (q.1, finalizeContextData (cbcMutatedLg backends lg).graph
            ((cbcMutatedLg backends lg).graph.topolSortOperations) lin q.2))) b = _
      rw [alookup_map_value _ (finalizeContextData (cbcMutatedLg backends lg).graph
        ((cbcMutatedLg backends lg).graph.topolSortOperations) lin) _, hv]
      rfl
    · obtain ⟨ha, hb', hc, hd, he, hf, hg, hh, hi⟩ :=
        finalizeContextData_spec (cbcMutatedLg backends lg).graph
          ((cbcMutatedLg backends lg).graph.topolSortOperations) lin v
      refine ⟨?_, ?_, ?_, ?_, ?_, ?_, he⟩
      · rw [ha, hverands]
      · rw [hb', hvops]
      · rw [hh, hvin, hverands]; rfl
      · rw [hi, hvout, hverands]; rfl
      · rw [hg, hvext, hverands]; rfl
      · rw [hf, hvops]
        exact filter_false_eq_nil _ (fun _ => rfl) _
  refine ⟨hmain, ?_, ?_⟩
  · intro abi opts res hok
    unfold createLinearExecutor at hok
    obtain ⟨r1, hr1, hok1⟩ := exceptCase_ok _ _ _ hok
    obtain ⟨r3, hr3, hok3⟩ := exceptCase_ok _ _ _ hok1
    cases hok3
    obtain ⟨data, hdata, _⟩ := hmain (opts.executor = "Linear")
    have hmem : b ∈ (createBackendContexts backends lg
        (opts.executor = "Linear")).contexts.map Prod.fst :=
      alookup_some_mem_fst _ _ _ hdata
    refine ⟨hmem, ?_⟩
    obtain ⟨A, B, heq, _, _, hperm⟩ := orderBackendContext_split
      (createBackendContexts backends lg (opts.executor = "Linear")).contexts
    show b ∈ (orderBackendContext (createBackendContexts backends lg
      (opts.executor = "Linear")).contexts).map Prod.fst
    rw [heq]
    exact ((hperm.map Prod.fst).mem_iff).mpr hmem
  · intro abi opts par res hok
    unfold createDataflowExecutor at hok
    obtain ⟨r1, hr1, hok1⟩ := exceptCase_ok _ _ _ hok
    obtain ⟨r3, hr3, hok3⟩ := exceptCase_ok _ _ _ hok1
    cases hok3
    obtain ⟨data, hdata, _⟩ := hmain (opts.executor = "Linear")
    have hmem : b ∈ (createBackendContexts backends lg
        (opts.executor = "Linear")).contexts.map Prod.fst :=
      alookup_some_mem_fst _ _ _ hdata
    refine ⟨hmem, ?_⟩
    obtain ⟨A, B, heq, _, _, hperm⟩ := orderBackendContext_split
      (createBackendContexts backends lg (opts.executor = "Linear")).contexts
    show b ∈ (orderBackendContext (createBackendContexts backends lg
      (opts.executor = "Linear")).contexts).map Prod.fst
    rw [heq]
    exact ((hperm.map Prod.fst).mem_iff).mpr hmem

/-! Claim C3: the partial graphs' IO lists and external marking. -/

theorem getDef_congr (g g' : Graph) (h : g.operations = g'.operations) (ind : Nat) :
    g.getDef ind = g'.getDef ind := by
  unfold Graph.getDef
  rw [h]

theorem getUses_congr (g g' : Graph) (h : g.operations = g'.operations) (ind : Nat) :
    g.getUses ind = g'.getUses ind := by
  unfold Graph.getUses
  rw [h]

theorem foldl_all_entries {γ α β : Type} [DecidableEq α] (P : β → Prop)
    (step : List (α × β) → γ → List (α × β)) :
    ∀ (l : List γ) (m0 : List (α × β)),
      (∀ m x, x ∈ l → (∀ b v, alookup m b = some v → P v) →
        ∀ b v, alookup (step m x) b = some v → P v) →
      (∀ b v, alookup m0 b = some v → P v) →
      ∀ b v, alookup (l.foldl step m0) b = some v → P v := by
  intro l
  induction l with
  | nil => intro m0 _ h0; exact h0
  | cons x t ih =>
    intro m0 hstep h0
    exact ih (step m0 x) (fun m y hy => hstep m y (List.mem_cons_of_mem _ hy))
      (hstep m0 x (List.mem_cons_self _ _) h0)

theorem initialContextMap_entries (backends : List String) (lg : LoweredGraph) (b : String)
    (v : ContextData) (h : alookup (initialContextMap backends lg) b = some v) :
    v.pgraph.inputs = [] ∧ v.pgraph.outputs = [] := by
  unfold initialContextMap at h
  induction backends with
  | nil => cases h
  | cons a rest ih =>
    rw [List.map_cons, alookup] at h
    by_cases ha : a = b
    · rw [if_pos ha] at h
      cases h
      exact ⟨rfl, rfl⟩
    · rw [if_neg ha] at h
      exact ih h

/-- Every entry of the context map after both separation phases has empty
partial-graph input and output lists (they are only populated by the
finalization loop). -/
theorem sep_entries_no_graph_io (backends : List String) (lg : LoweredGraph) (b : String)
    (v : ContextData)
    (h : alookup (separateOperations (cbcMutatedLg backends lg) (cbcOperandPhase backends lg).2
      (cbcOperandPhase backends lg).1) b = some v) :
    v.pgraph.inputs = [] ∧ v.pgraph.outputs = [] := by
  refine foldl_all_entries (fun w => w.pgraph.inputs = [] ∧ w.pgraph.outputs = [])
    (operationSepStep (cbcMutatedLg backends lg) (cbcOperandPhase backends lg).2)
    lg.graph.operations (cbcOperandPhase backends lg).1 ?_ ?_ b v h
  · intro m q _ hall c w hw
    rw [operationSepStep_alookup] at hw
    by_cases hc : c = (cbcMutatedLg backends lg).operationBackend q.1
    · rw [if_pos hc] at hw
      cases hw
      obtain ⟨_, _, hi, hu, _⟩ := separateOneOperation_fields (cbcMutatedLg backends lg)
        (cbcOperandPhase backends lg).2 q.1 q.2
        ((alookup m ((cbcMutatedLg backends lg).operationBackend q.1)).getD emptyContextData)
      rw [hi, hu]
      rcases hold : alookup m ((cbcMutatedLg backends lg).operationBackend q.1) with _ | w0
      · exact ⟨rfl, rfl⟩
      · exact hall _ _ hold
    · rw [if_neg hc] at hw
      exact hall c w hw
  · intro c w hw
    have hw' : alookup (lg.graph.operands.foldl (operandSepStep lg)
        (initialContextMap backends lg)) c = some w := by
      unfold cbcOperandPhase at hw
      rw [separateOperands_eq] at hw
      exact hw
    refine foldl_all_entries (fun u => u.pgraph.inputs = [] ∧ u.pgraph.outputs = [])
      (operandSepStep lg) lg.graph.operands (initialContextMap backends lg) ?_ ?_ c w hw'
    · intro m p _ hall c' u hu
      rw [operandSepStep_alookup] at hu
      by_cases hc1 : lg.operandDefFactors p.1 = []
      · rw [if_pos hc1] at hu
        exact hall c' u hu
      · rw [if_neg hc1] at hu
        by_cases hc2 : c' = (getOnlyElement (lg.operandDefFactors p.1)).backend
        · rw [if_pos hc2] at hu
          cases hu
          rcases hold : alookup m (getOnlyElement (lg.operandDefFactors p.1)).backend
            with _ | u0
          · exact ⟨rfl, rfl⟩
          · have hp := hall _ _ hold
            exact hp
        · rw [if_neg hc2] at hu
          exact hall c' u hu
    · intro c' u hu
      exact initialContextMap_entries backends lg c' u hu

/-- Claim C3: for every partial graph of `createBackendContexts`, the input
list is exactly (whole-graph inputs ∩ its operands) ∪ (its operands with no
valid def in the partial graph and not constant), the output list is exactly
(whole-graph outputs ∩ its operands) ∪ (its operands with zero uses in the
partial graph), and every whole-graph input or output operand present in the
partial graph is marked external. -/
theorem C3_partial_graph_io (backends : List String) (lg : LoweredGraph) (lin : Bool)
    (b : String) (data : ContextData)
    (hdata : alookup (createBackendContexts backends lg lin).contexts b = some data) :
    (∀ ind, ind ∈ data.pgraph.inputs ↔
      ∃ p, p ∈ data.pgraph.operands ∧ p.1 = ind ∧
        (ind ∈ lg.graph.inputs ∨
          (data.pgraph.getDef ind = none ∧ p.2.isConstant = false))) ∧
    (∀ ind, ind ∈ data.pgraph.outputs ↔
      ∃ p, p ∈ data.pgraph.operands ∧ p.1 = ind ∧
        (ind ∈ lg.graph.outputs ∨ data.pgraph.getUses ind = [])) ∧
    (∀ p, p ∈ data.pgraph.operands → p.1 ∈ lg.graph.inputs ∨ p.1 ∈ lg.graph.outputs →
      p.1 ∈ data.externalOperands) := by
  have hdata' : (alookup (separateOperations (cbcMutatedLg backends lg)
      (cbcOperandPhase backends lg).2 (cbcOperandPhase backends lg).1) b).map
        (finalizeContextData (cbcMutatedLg backends lg).graph
          ((cbcMutatedLg backends lg).graph.topolSortOperations) lin) = some data := by
    rw [← alookup_map_value _ (finalizeContextData (cbcMutatedLg backends lg).graph
      ((cbcMutatedLg backends lg).graph.topolSortOperations) lin) b]
    exact hdata
  obtain ⟨data1, h1, h2⟩ := Option.map_eq_some'.mp hdata'
  obtain ⟨hio1, hio2⟩ := sep_entries_no_graph_io backends lg b data1 h1
  obtain ⟨ha, hb', hc, hd, he, hf, hg, hh, hi⟩ :=
    finalizeContextData_spec (cbcMutatedLg backends lg).graph
      ((cbcMutatedLg backends lg).graph.topolSortOperations) lin data1
  subst h2
  have hdef : ∀ ind, (finalizeContextData (cbcMutatedLg backends lg).graph
      ((cbcMutatedLg backends lg).graph.topolSortOperations) lin data1).pgraph.getDef ind
      = data1.pgraph.getDef ind := fun ind => getDef_congr _ _ hb' ind
  have huses : ∀ ind, (finalizeContextData (cbcMutatedLg backends lg).graph
      ((cbcMutatedLg backends lg).graph.topolSortOperations) lin data1).pgraph.getUses ind
      = data1.pgraph.getUses ind := fun ind => getUses_congr _ _ hb' ind
  refine ⟨?_, ?_, ?_⟩
  · intro ind
    rw [hh, hio1, ha]
    constructor
    · intro hmem
      simp only [List.nil_append] at hmem
      obtain ⟨p, hp, hpi⟩ := List.mem_map.mp hmem
      obtain ⟨hpmem, hpcond⟩ := List.mem_filter.mp hp
      unfold finInCond at hpcond
      rw [decide_eq_true_eq] at hpcond
      refine ⟨p, hpmem, hpi, ?_⟩
      rcases hpcond with hl | ⟨hdn, hcn⟩
      · exact Or.inl (hpi ▸ hl)
      · refine Or.inr ⟨?_, hcn⟩
        rw [hdef ind, ← hpi]
        exact Option.isNone_iff_eq_none.mp hdn
    · intro ⟨p, hpmem, hpi, hcond⟩
      simp only [List.nil_append]
      refine List.mem_map.mpr ⟨p, List.mem_filter.mpr ⟨hpmem, ?_⟩, hpi⟩
      unfold finInCond
      rw [decide_eq_true_eq]
      rcases hcond with hl | ⟨hdn, hcn⟩
      · exact Or.inl (hpi ▸ hl)
      · refine Or.inr ⟨?_, hcn⟩
        rw [hpi, Option.isNone_iff_eq_none, ← hdef ind]
        exact hdn
  · intro ind
    rw [hi, hio2, ha]
    constructor
    · intro hmem
      simp only [List.nil_append] at hmem
      obtain ⟨p, hp, hpi⟩ := List.mem_map.mp hmem
      obtain ⟨hpmem, hpcond⟩ := List.mem_filter.mp hp
      unfold finOutCond at hpcond
      rw [decide_eq_true_eq] at hpcond
      refine ⟨p, hpmem, hpi, ?_⟩
      rcases hpcond with hl | hu
      · exact Or.inl (hpi ▸ hl)
      · refine Or.inr ?_
        rw [huses ind, ← hpi]
        exact hu
    · intro ⟨p, hpmem, hpi, hcond⟩
      simp only [List.nil_append]
      refine List.mem_map.mpr ⟨p, List.mem_filter.mpr ⟨hpmem, ?_⟩, hpi⟩
      unfold finOutCond
      rw [decide_eq_true_eq]
      rcases hcond with hl | hu
      · exact Or.inl (hpi ▸ hl)
      · refine Or.inr ?_
        rw [hpi, ← huses ind]
        exact hu
  · intro p hpmem hio
    rw [hg]
    refine List.mem_append_right _ ?_
    rw [ha] at hpmem
    refine List.mem_map.mpr ⟨p, List.mem_filter.mpr ⟨hpmem, ?_⟩, rfl⟩
    unfold finExtCond
    rw [decide_eq_true_eq]
    exact hio

/-- Witness for C3 at a concrete lowered graph (the builtin backend's partial
graph of `lgEx`). -/
theorem C3_partial_graph_io_witness :
    (alookup (createBackendContexts ["builtin"] lgEx false).contexts "builtin"
        = some ((alookup (createBackendContexts ["builtin"] lgEx false).contexts "builtin").getD
            emptyContextData)) ∧
    (∀ p, p ∈ ((alookup (createBackendContexts ["builtin"] lgEx false).contexts "builtin").getD
          emptyContextData).pgraph.operands →
        p.1 ∈ lgEx.graph.inputs ∨ p.1 ∈ lgEx.graph.outputs →
        p.1 ∈ ((alookup (createBackendContexts ["builtin"] lgEx false).contexts "builtin").getD
          emptyContextData).externalOperands) :=
  ⟨rfl, (C3_partial_graph_io ["builtin"] lgEx false "builtin" _ rfl).2.2⟩

/-- Witness for C10: backend `idle` is registered but unused. -/
theorem C10_unassigned_backend_witness :
    ("idle" ∈ ["builtin", "idle"] ∧
      (∀ q ∈ lgEx.graph.operations, lgEx.operationBackend q.1 ≠ "idle") ∧
      (∀ p ∈ lgEx.graph.operands, lgEx.operandDefFactors p.1 ≠ [] →
        (getOnlyElement (lgEx.operandDefFactors p.1)).backend ≠ "idle")) ∧
    (∀ lin : Bool, ∃ data,
      alookup (createBackendContexts ["builtin", "idle"] lgEx lin).contexts "idle"
          = some data ∧
        data.pgraph.operands = [] ∧ data.pgraph.operations = [] ∧
        data.pgraph.inputs = [] ∧ data.pgraph.outputs = [] ∧
        data.externalOperands = [] ∧ data.opOrder = [] ∧
        data.isLinearExecutor = lin) :=
  ⟨⟨by decide, by decide, by decide⟩,
   (C10_unassigned_backend ["builtin", "idle"] lgEx "idle" (by decide) (by decide) (by decide)).1⟩

/-- Witness for C8 on the non-parallel dataflow path. -/
theorem C8_profile_observer_witness :
    createDataflowExecutor abiEx ["builtin"] lgEx optsDataflowProf false
        = .ok (okResult (createDataflowExecutor abiEx ["builtin"] lgEx optsDataflowProf false)) ∧
    ((hasProfileObserver
          (okResult (createDataflowExecutor abiEx ["builtin"] lgEx optsDataflowProf false)).observers
        = true ↔ (optsDataflowProf.heProfilingMode = true ∧ false = false)) ∧
      (optsDataflowProf.heProfilingMode = true → false = false →
        Observer.profileObserver
            ((okResult (createDataflowExecutor abiEx ["builtin"] lgEx
              optsDataflowProf false)).contexts.map Prod.fst)
          ∈ (okResult (createDataflowExecutor abiEx ["builtin"] lgEx
              optsDataflowProf false)).observers)) :=
  ⟨rfl,
   C8_profile_observer abiEx ["builtin"] lgEx optsDataflowProf false
     (okResult (createDataflowExecutor abiEx ["builtin"] lgEx optsDataflowProf false))
     rfl⟩

/-! Helper lemmas for the dealloc-plan analysis (C1). -/

/-- `contains` and membership, negative form. -/
theorem contains_eq_false_iff (l : List Nat) (a : Nat) : l.contains a = false ↔ a ∉ l := by
  constructor
  · intro h hm
    have hc : l.contains a = true := List.elem_iff.mpr hm
    rw [h] at hc
    exact Bool.noConfusion hc
  · intro h
    cases hb : l.contains a
    · rfl
    · exact absurd (List.elem_iff.mp hb) h

/-- `dedup` does not change `contains`. -/
theorem contains_dedup (l : List Nat) (a : Nat) : l.dedup.contains a = l.contains a := by
  by_cases h : a ∈ l
  · have h1 : l.contains a = true := List.elem_iff.mpr h
    have h2 : l.dedup.contains a = true := List.elem_iff.mpr (List.mem_dedup.mpr h)
    rw [h1, h2]
  · have h1 : l.contains a = false := (contains_eq_false_iff _ _).mpr h
    have h2 : l.dedup.contains a = false :=
      (contains_eq_false_iff _ _).mpr (fun hm => h (List.mem_dedup.mp hm))
    rw [h1, h2]

/-- Use counters add over concatenated op sequences. -/
theorem countUsers_append (g : Graph) (l1 l2 : List Nat) (ind : Nat) :
    countUsers g (l1 ++ l2) ind = countUsers g l1 ind + countUsers g l2 ind := by
  unfold countUsers
  rw [List.filter_append, List.length_append]

/-- Use counters are invariant under permutation of the op sequence. -/
theorem countUsers_perm (g : Graph) {l1 l2 : List Nat} (ind : Nat) (h : l1.Perm l2) :
    countUsers g l1 ind = countUsers g l2 ind := by
  unfold countUsers
  exact (h.filter _).length_eq

/-- Over the full key sequence of the operation store (with unique keys), the
use counter of an operand is exactly the length of its derived use list. -/
theorem countUsers_keys (g : Graph) (ind : Nat)
    (hnodup : (g.operations.map Prod.fst).Nodup) :
    countUsers g (g.operations.map Prod.fst) ind = (g.getUses ind).length := by
  unfold countUsers Graph.getUses
  rw [List.map_filter, List.length_map, List.length_map]
  congr 1
  refine List.filter_congr ?_
  intro q hq
  have hop : g.operationAt q.1 = q.2 := by
    show (alookup g.operations q.1).getD ⟨[], []⟩ = q.2
    rw [alookup_of_mem_nodup g.operations hnodup q hq]
    rfl
  show (g.operationAt q.1).inputList.contains ind = (q.2.inputs.filterMap id).contains ind
  rw [hop]
  show (q.2.inputs.filterMap id).dedup.contains ind = (q.2.inputs.filterMap id).contains ind
  exact contains_dedup _ _

/-- Closed form of the inner dealloc walk over a duplicate-free operand list:
all listed counters are decremented once, and exactly the operands passing
the dead condition of the initial counter state are appended. -/
theorem walkFold_spec (g : Graph) (mio : List Nat) :
    ∀ (lst : List Nat), lst.Nodup → ∀ (u : Nat → Nat) (acc : List Nat),
      List.foldl
        (fun st ind =>
          let u' := st.1 ind - 1
          let uses := fun j => if j = ind then u' else st.1 j
          if deadCond g mio st.1 ind then (uses, st.2 ++ [ind]) else (uses, st.2))
        (u, acc) lst
      = (fun j => if j ∈ lst then u j - 1 else u j,
         acc ++ lst.filter (deadCond g mio u)) := by
  intro lst
  induction lst with
  | nil =>
      intro _ u acc
      simp
  | cons a t ih =>
      intro hnd u acc
      rw [List.nodup_cons] at hnd
      obtain ⟨ha, ht⟩ := hnd
      trans List.foldl
        (fun st ind =>
          let u' := st.1 ind - 1
          let uses := fun j => if j = ind then u' else st.1 j
          if deadCond g mio st.1 ind then (uses, st.2 ++ [ind]) else (uses, st.2))
        ((fun j => if j = a then u a - 1 else u j),
         if deadCond g mio u a then acc ++ [a] else acc) t
      · rw [List.foldl_cons]
        refine congrArg (fun z => List.foldl _ z t) ?_
        by_cases hd : deadCond g mio u a = true
        · simp [hd]
        · simp [hd]
      rw [ih ht]
      have hfst : (fun j => if j ∈ t then (fun j => if j = a then u a - 1 else u j) j - 1
            else (fun j => if j = a then u a - 1 else u j) j)
          = (fun j => if j ∈ a :: t then u j - 1 else u j) := by
        funext j
        by_cases hjt : j ∈ t
        · have hja : j ≠ a := fun h => ha (h ▸ hjt)
          simp [hjt, hja, List.mem_cons]
        · by_cases hja : j = a
          · subst hja
            simp [hjt, List.mem_cons]
          · simp [hjt, hja, List.mem_cons]
      have hsnd : (if deadCond g mio u a then acc ++ [a] else acc)
            ++ t.filter (deadCond g mio (fun j => if j = a then u a - 1 else u j))
          = acc ++ (a :: t).filter (deadCond g mio u) := by
        have hfc : t.filter (deadCond g mio (fun j => if j = a then u a - 1 else u j))
            = t.filter (deadCond g mio u) := by
          refine List.filter_congr ?_
          intro x hx
          have hxa : x ≠ a := fun h => ha (h ▸ hx)
          simp [deadCond, hxa]
        rw [hfc, List.filter_cons]
        by_cases hd : deadCond g mio u a = true
        · rw [if_pos hd, if_pos hd]
          simp
        · rw [if_neg hd, if_neg hd]
      exact congrArg₂ Prod.mk hfst hsnd

/-- The walk of one operation, in closed form. -/
theorem deallocWalkOp_spec (g : Graph) (mio : List Nat) (u : Nat → Nat) (acc : List Nat)
    (op : Operation) :
    deallocWalkOp g mio (u, acc) op
      = (fun j => if j ∈ op.inputList then u j - 1 else u j,
         acc ++ op.inputList.filter (deadCond g mio u)) :=
  walkFold_spec g mio op.inputList (List.nodup_dedup _) u acc

/-- Closed form of the outer dealloc fold: starting from the counter state
left by the processed part of the order, it appends exactly `planFrom`. -/
theorem planFold_spec (g : Graph) (mio : List Nat) :
    ∀ (rest pre : List Nat) (acc : List (Nat × List Nat)),
      List.foldl
        (fun (st : (Nat → Nat) × List (Nat × List Nat)) opInd =>
          let r := deallocWalkOp g mio (st.1, []) (g.operationAt opInd)
          (r.1, st.2 ++ [(opInd, r.2)]))
        (usesAfter g pre, acc) rest
      = (usesAfter g (pre ++ rest), acc ++ planFrom g mio pre rest) := by
  intro rest
  induction rest with
  | nil =>
      intro pre acc
      simp [planFrom]
  | cons o rest ih =>
      intro pre acc
      trans List.foldl
        (fun (st : (Nat → Nat) × List (Nat × List Nat)) opInd =>
          let r := deallocWalkOp g mio (st.1, []) (g.operationAt opInd)
          (r.1, st.2 ++ [(opInd, r.2)]))
        ((fun j => if j ∈ (g.operationAt o).inputList then usesAfter g pre j - 1
            else usesAfter g pre j),
         acc ++ [(o, (g.operationAt o).inputList.filter
           (deadCond g mio (usesAfter g pre)))]) rest
      · rw [List.foldl_cons]
        refine congrArg (fun z => List.foldl _ z rest) ?_
        simp [deallocWalkOp_spec]
      have hfst : (fun j => if j ∈ (g.operationAt o).inputList then usesAfter g pre j - 1
            else usesAfter g pre j) = usesAfter g (pre ++ [o]) := by
        funext j
        have hca : countUsers g (pre ++ [o]) j
            = countUsers g pre j + countUsers g [o] j := countUsers_append g pre [o] j
        by_cases hj : j ∈ (g.operationAt o).inputList
        · have h1 : countUsers g [o] j = 1 := by
            unfold countUsers
            simp [hj]
          rw [if_pos hj]
          show usesAfter g pre j - 1 = initialUses g j - countUsers g (pre ++ [o]) j
          rw [hca, h1]
          show initialUses g j - countUsers g pre j - 1
              = initialUses g j - (countUsers g pre j + 1)
          omega
        · have h1 : countUsers g [o] j = 0 := by
            unfold countUsers
            simp [hj]
          rw [if_neg hj]
          show usesAfter g pre j = initialUses g j - countUsers g (pre ++ [o]) j
          rw [hca, h1]
          show initialUses g j - countUsers g pre j
              = initialUses g j - (countUsers g pre j + 0)
          omega
      rw [hfst, ih]
      simp [planFrom]

/-- The dealloc simulation equals its closed form `planFrom`. -/
theorem deallocPlan_eq_planFrom (g : Graph) (order : List Nat) :
    deallocPlan g order = planFrom g ((g.inputs ++ g.outputs).dedup) [] order := by
  have h0 : initialUses g = usesAfter g [] := by
    funext j
    simp [usesAfter, countUsers]
  show (List.foldl
      (fun (st : (Nat → Nat) × List (Nat × List Nat)) opInd =>
        let r := deallocWalkOp g ((g.inputs ++ g.outputs).dedup) (st.1, [])
          (g.operationAt opInd)
        (r.1, st.2 ++ [(opInd, r.2)]))
      (initialUses g, []) order).2
    = planFrom g ((g.inputs ++ g.outputs).dedup) [] order
  rw [h0, planFold_spec g ((g.inputs ++ g.outputs).dedup) order [] []]
  rfl

/-- Membership in `planFrom`: an entry belongs to the plan exactly when the
remaining order splits at its op, the list being the filtered inputs of that
op under the counter state of everything before it. -/
theorem planFrom_mem (g : Graph) (mio : List Nat) :
    ∀ (rest pre : List Nat) (o : Nat) (lst : List Nat),
      ((o, lst) ∈ planFrom g mio pre rest ↔
        ∃ r1 r2, rest = r1 ++ o :: r2 ∧
          lst = (g.operationAt o).inputList.filter
            (deadCond g mio (usesAfter g (pre ++ r1)))) := by
  intro rest
  induction rest with
  | nil =>
      intro pre o lst
      constructor
      · intro h
        simp [planFrom] at h
      · rintro ⟨r1, r2, heq, -⟩
        cases r1 <;> simp at heq
  | cons a rest ih =>
      intro pre o lst
      simp only [planFrom, List.mem_cons]
      constructor
      · rintro (hhead | htail)
        · rw [Prod.mk.injEq] at hhead
          obtain ⟨ho, hlst⟩ := hhead
          subst ho
          refine ⟨[], rest, rfl, ?_⟩
          rw [hlst, List.append_nil]
        · obtain ⟨r1, r2, heq, hlst⟩ := (ih (pre ++ [a]) o lst).mp htail
          refine ⟨a :: r1, r2, by rw [heq, List.cons_append], ?_⟩
          rw [hlst, List.append_assoc, List.singleton_append]
      · rintro ⟨r1, r2, heq, hlst⟩
        cases r1 with
        | nil =>
            simp only [List.nil_append] at heq
            injection heq with h1 h2
            subst h1
            subst h2
            left
            rw [Prod.mk.injEq]
            refine ⟨rfl, ?_⟩
            rw [hlst, List.append_nil]
        | cons b r1 =>
            rw [List.cons_append] at heq
            injection heq with h1 h2
            subst h1
            right
            refine (ih _ o lst).mpr ⟨r1, r2, h2, ?_⟩
            rw [hlst, List.append_assoc, List.singleton_append]

/-- If the split point of one decomposition of the order lies strictly before
another's, the second decomposition's op lies in the first's remainder. -/
theorem mem_suffix_of_decomp {order : List Nat} {o o2 : Nat} {p s p2 s2 : List Nat}
    (h1 : order = p ++ o :: s) (h2 : order = p2 ++ o2 :: s2)
    (hlt : p.length < p2.length) : o2 ∈ s := by
  have hs : s = order.drop (p.length + 1) := by
    rw [h1, List.drop_append 1]
    simp
  have hsfx : order.drop p2.length = o2 :: s2 := by
    rw [h2, List.drop_left]
  have hdd : (order.drop (p.length + 1)).drop (p2.length - (p.length + 1))
      = order.drop p2.length := by
    rw [List.drop_drop]
    congr 1
    omega
  have ho2m : o2 ∈ order.drop p2.length := by
    rw [hsfx]
    exact List.mem_cons_self _ _
  rw [← hdd] at ho2m
  rw [hs]
  exact List.drop_subset _ _ ho2m

/-- In a duplicate-free order, the decomposition at a given op is unique. -/
theorem decomp_unique {order : List Nat} {o : Nat} {p s p2 s2 : List Nat}
    (hnd : order.Nodup) (h1 : order = p ++ o :: s) (h2 : order = p2 ++ o :: s2) :
    p = p2 ∧ s = s2 := by
  have hlen : p.length = p2.length := by
    by_contra hne
    rcases Nat.lt_or_ge p.length p2.length with hlt | hge
    · have hos : o ∈ s := mem_suffix_of_decomp h1 h2 hlt
      rw [h1] at hnd
      have hns : (o :: s).Nodup := hnd.of_append_right
      exact (List.nodup_cons.mp hns).1 hos
    · have hlt2 : p2.length < p.length := by omega
      have hos : o ∈ s2 := mem_suffix_of_decomp h2 h1 hlt2
      rw [h2] at hnd
      have hns : (o :: s2).Nodup := hnd.of_append_right
      exact (List.nodup_cons.mp hns).1 hos
  obtain ⟨hp, hs⟩ := List.append_inj (h1.symm.trans h2) hlen
  cases hs
  exact ⟨hp, rfl⟩

/-- Two ops that both read an operand and both see no later reader of it in
their remainders sit at the same position of the order. -/
theorem lastUser_unique (g : Graph) {order : List Nat} {ind o o2 : Nat}
    {p s p2 s2 : List Nat}
    (h1 : order = p ++ o :: s) (h2 : order = p2 ++ o2 :: s2)
    (hin2 : ind ∈ (g.operationAt o2).inputList)
    (hlater : ∀ x ∈ s, ind ∉ (g.operationAt x).inputList)
    (hin : ind ∈ (g.operationAt o).inputList)
    (hlater2 : ∀ x ∈ s2, ind ∉ (g.operationAt x).inputList) :
    o2 = o := by
  rcases Nat.lt_trichotomy p.length p2.length with hlt | heq | hgt
  · exact absurd hin2 (hlater o2 (mem_suffix_of_decomp h1 h2 hlt))
  · obtain ⟨-, hs⟩ := List.append_inj (h1.symm.trans h2) heq
    injection hs with h3 h4
    exact h3.symm
  · exact absurd hin (hlater2 o (mem_suffix_of_decomp h2 h1 hgt))

/-- The dead condition of line 390, characterized: under the counter state
left by the processed part `p` of the order, an input operand of the op at
the split point dies there exactly when it is no Variable, no graph input or
output, not constant (the `+1` trick keeps constant counters positive), and
no operation after the split point reads it. -/
theorem deadCond_iff (g : Graph) (order p s : List Nat) (o ind : Nat)
    (hperm : order.Perm (g.operations.map Prod.fst))
    (hnodup : (g.operations.map Prod.fst).Nodup)
    (horder : order = p ++ o :: s)
    (hin : ind ∈ (g.operationAt o).inputList) :
    (deadCond g ((g.inputs ++ g.outputs).dedup) (usesAfter g p) ind = true ↔
      ((g.operandAt ind).isVariable = false ∧ ind ∉ g.inputs ∧ ind ∉ g.outputs ∧
        (g.operandAt ind).isConstant = false ∧
        ∀ o2 ∈ s, ind ∉ (g.operationAt o2).inputList)) := by
  have hU : countUsers g order ind = (g.getUses ind).length := by
    rw [countUsers_perm g ind hperm, countUsers_keys g ind hnodup]
  have hco : (g.operationAt o).inputList.contains ind = true := List.elem_iff.mpr hin
  have hcons : countUsers g (o :: s) ind = 1 + countUsers g s ind := by
    unfold countUsers
    rw [List.filter_cons, if_pos hco, List.length_cons]
    omega
  have hsplit : countUsers g order ind = countUsers g p ind + (1 + countUsers g s ind) := by
    rw [horder, countUsers_append, hcons]
  have hmio : ((g.inputs ++ g.outputs).dedup.contains ind = false) ↔
      (ind ∉ g.inputs ∧ ind ∉ g.outputs) := by
    rw [contains_eq_false_iff, List.mem_dedup, List.mem_append]
    exact not_or
  have hzero : (usesAfter g p ind - 1 = 0) ↔
      ((g.operandAt ind).isConstant = false ∧ countUsers g s ind = 0) := by
    by_cases hconst : (g.operandAt ind).isConstant = true
    · have ha : usesAfter g p ind = (g.getUses ind).length + 1 - countUsers g p ind := by
        show initialUses g ind - countUsers g p ind = _
        unfold initialUses
        rw [if_pos hconst]
      constructor
      · intro h
        exfalso
        omega
      · rintro ⟨hc, -⟩
        rw [hconst] at hc
        exact Bool.noConfusion hc
    · have hconst2 : (g.operandAt ind).isConstant = false := by
        cases hb : (g.operandAt ind).isConstant
        · rfl
        · exact absurd hb hconst
      have ha : usesAfter g p ind = (g.getUses ind).length - countUsers g p ind := by
        show initialUses g ind - countUsers g p ind = _
        unfold initialUses
        rw [if_neg hconst]
        omega
      constructor
      · intro h
        exact ⟨hconst2, by omega⟩
      · rintro ⟨-, hcs⟩
        omega
  have hlate : countUsers g s ind = 0 ↔ (∀ o2 ∈ s, ind ∉ (g.operationAt o2).inputList) := by
    unfold countUsers
    rw [List.length_eq_zero, List.filter_eq_nil_iff]
    constructor
    · intro h o2 ho2 hind2
      exact h o2 ho2 (List.elem_iff.mpr hind2)
    · intro h o2 ho2 hc
      exact h o2 ho2 (List.elem_iff.mp hc)
  unfold deadCond
  rw [Bool.and_eq_true, Bool.and_eq_true, Bool.not_eq_true', Bool.not_eq_true',
    decide_eq_true_eq, hmio, hzero, hlate]
  tauto

/-- C1: soundness and the corrected completeness of the Linear dealloc plan.
Soundness: every operand listed in an op's dealloc list is read by that op as
its last user in the order, is no Variable, no graph input or output, and —
beyond the claim's wording — never a constant.  Completeness and uniqueness:
every non-constant operand meeting the claimed conditions appears in the
dealloc list of its last user and in no other list.  The claimed completeness
for constant operands is refuted separately: the simulation's `+1` counter
trick keeps constants alive forever. -/
theorem C1_dealloc_plan (g : Graph) (order : List Nat)
    (hperm : order.Perm (g.operations.map Prod.fst))
    (hnodup : (g.operations.map Prod.fst).Nodup) :
    (∀ o lst, (o, lst) ∈ deallocPlan g order → ∀ ind ∈ lst,
      ind ∈ (g.operationAt o).inputList ∧
      (g.operandAt ind).isVariable = false ∧
      ind ∉ g.inputs ∧ ind ∉ g.outputs ∧
      (g.operandAt ind).isConstant = false ∧
      ∃ p s, order = p ++ o :: s ∧ ∀ o2 ∈ s, ind ∉ (g.operationAt o2).inputList) ∧
    (∀ ind o p s, order = p ++ o :: s →
      ind ∈ (g.operationAt o).inputList →
      (∀ o2 ∈ s, ind ∉ (g.operationAt o2).inputList) →
      (g.operandAt ind).isVariable = false →
      ind ∉ g.inputs → ind ∉ g.outputs →
      (g.operandAt ind).isConstant = false →
      ∃ lst, (o, lst) ∈ deallocPlan g order ∧ ind ∈ lst ∧
        ∀ e ∈ deallocPlan g order, ind ∈ e.2 → e = (o, lst)) := by
  constructor
  · intro o lst hmem ind hind
    rw [deallocPlan_eq_planFrom] at hmem
    obtain ⟨p, s, horder, hlst⟩ := (planFrom_mem g _ order [] o lst).mp hmem
    rw [List.nil_append] at hlst
    subst hlst
    obtain ⟨hin, hdc⟩ := List.mem_filter.mp hind
    obtain ⟨hvar, hni, hno, hconst, hlater⟩ :=
      (deadCond_iff g order p s o ind hperm hnodup horder hin).mp hdc
    exact ⟨hin, hvar, hni, hno, hconst, p, s, horder, hlater⟩
  · intro ind o p s horder hin hlater hvar hni hno hconst
    have hdc : deadCond g ((g.inputs ++ g.outputs).dedup) (usesAfter g p) ind = true :=
      (deadCond_iff g order p s o ind hperm hnodup horder hin).mpr
        ⟨hvar, hni, hno, hconst, hlater⟩
    refine ⟨(g.operationAt o).inputList.filter
        (deadCond g ((g.inputs ++ g.outputs).dedup) (usesAfter g p)), ?_, ?_, ?_⟩
    · rw [deallocPlan_eq_planFrom]
      refine (planFrom_mem g _ order [] o _).mpr ⟨p, s, horder, ?_⟩
      rw [List.nil_append]
    · exact List.mem_filter.mpr ⟨hin, hdc⟩
    · rintro ⟨o2, lst2⟩ hmem2 hind2
      rw [deallocPlan_eq_planFrom] at hmem2
      obtain ⟨p2, s2, horder2, hlst2⟩ := (planFrom_mem g _ order [] o2 lst2).mp hmem2
      rw [List.nil_append] at hlst2
      subst hlst2
      obtain ⟨hin2, hdc2⟩ := List.mem_filter.mp hind2
      obtain ⟨-, -, -, -, hlater2⟩ :=
        (deadCond_iff g order p2 s2 o2 ind hperm hnodup horder2 hin2).mp hdc2
      have ho2 : o2 = o := lastUser_unique g horder horder2 hin2 hlater hin hlater2
      subst ho2
      obtain ⟨hpp, -⟩ := decomp_unique ((hperm.nodup_iff).mpr hnodup) horder2 horder
      rw [Prod.mk.injEq]
      exact ⟨rfl, by rw [hpp]⟩

/-- C1 counterexample to the claimed completeness: in `gEx1` the constant
operand 0 is read only by op 10 — its last use in the order `[10]` is op 10 —
and is no Variable and no graph input or output, yet it appears in no dealloc
list: the simulation's `+1` counter trick for constants keeps their counters
positive forever. -/
theorem C1_counterexample :
    0 ∈ (gEx1.operationAt 10).inputList ∧
    (gEx1.operandAt 0).isVariable = false ∧
    0 ∉ gEx1.inputs ∧ 0 ∉ gEx1.outputs ∧
    (gEx1.operandAt 0).isConstant = true ∧
    deallocPlan gEx1 [10] = [(10, [2])] ∧
    ∀ e ∈ deallocPlan gEx1 [10], 0 ∉ e.2 := by
  decide

/-- Witness for C1: in `gEx1` with order `[10]`, the plain operand 2 dying at
op 10 appears exactly in op 10's dealloc list. -/
theorem C1_dealloc_plan_witness :
    [10].Perm (gEx1.operations.map Prod.fst) ∧
    (gEx1.operations.map Prod.fst).Nodup ∧
    ∃ lst, (10, lst) ∈ deallocPlan gEx1 [10] ∧ 2 ∈ lst ∧
      ∀ e ∈ deallocPlan gEx1 [10], 2 ∈ e.2 → e = (10, lst) :=
  ⟨by decide, by decide,
   (C1_dealloc_plan gEx1 [10] (by decide) (by decide)).2 2 10 [] [] rfl (by decide)
     (by decide) (by decide) (by decide) (by decide) (by decide)⟩

end ONE
